import Mathlib

/-!
Verification of the go-duckdb statement and appender layers.

This file gives a shallow embedding of `statement.go` and `appender.go`
(the statement bind/execute protocol and the appender accumulation/flush
protocol) and proves the specified properties about them.

Code that the embedded functions call but that lives outside the two
embedded files (the error-construction helpers of `errors.go`, the value
codec of `types.go`, and the native engine entry points) is modelled
either from the specification (where noted) or as an oracle environment:
engine calls return a success/failure status drawn from an environment
supplied as an explicit parameter, and observable engine interactions are
recorded as events.
-/

set_option maxHeartbeats 1000000

namespace GoDuck

/-- Engine logical type identifiers, mirroring the `Type` enumeration used by
`statement.go` (`TYPE_...` constants). `tOther` stands for any further engine
type id not explicitly dispatched on by the embedded code. -/
inductive DType where
  | tInvalid
  | tBoolean
  | tTinyInt
  | tSmallInt
  | tInteger
  | tBigInt
  | tUTinyInt
  | tUSmallInt
  | tUInteger
  | tUBigInt
  | tFloat
  | tDouble
  | tVarchar
  | tBlob
  | tDecimal
  | tHugeInt
  | tInterval
  | tTimestamp
  | tTimestampTZ
  | tTimestampS
  | tTimestampMS
  | tTimestampNS
  | tDate
  | tTime
  | tTimeTZ
  | tList
  | tStruct
  | tMap
  | tArray
  | tEnum
  | tOther (code : Nat)
  deriving DecidableEq, Repr

/-- Modelled from the spec: the `typeToStringMap` of the repository (not under
`src/`) maps each engine type id to its display name; errors must name the
offending type. -/
def typeToStringMap : DType → String
  | .tInvalid => "INVALID"
  | .tBoolean => "BOOLEAN"
  | .tTinyInt => "TINYINT"
  | .tSmallInt => "SMALLINT"
  | .tInteger => "INTEGER"
  | .tBigInt => "BIGINT"
  | .tUTinyInt => "UTINYINT"
  | .tUSmallInt => "USMALLINT"
  | .tUInteger => "UINTEGER"
  | .tUBigInt => "UBIGINT"
  | .tFloat => "FLOAT"
  | .tDouble => "DOUBLE"
  | .tVarchar => "VARCHAR"
  | .tBlob => "BLOB"
  | .tDecimal => "DECIMAL"
  | .tHugeInt => "HUGEINT"
  | .tInterval => "INTERVAL"
  | .tTimestamp => "TIMESTAMP"
  | .tTimestampTZ => "TIMESTAMP WITH TIME ZONE"
  | .tTimestampS => "TIMESTAMP_S"
  | .tTimestampMS => "TIMESTAMP_MS"
  | .tTimestampNS => "TIMESTAMP_NS"
  | .tDate => "DATE"
  | .tTime => "TIME"
  | .tTimeTZ => "TIME WITH TIME ZONE"
  | .tList => "LIST"
  | .tStruct => "STRUCT"
  | .tMap => "MAP"
  | .tArray => "ARRAY"
  | .tEnum => "ENUM"
  | .tOther _ => "OTHER"

/-- Modelled from the spec: the unknown-type error message constant of the
repository's error tables (not under `src/`). -/
def unknownTypeErrMsg : String := "unknown type"

/-- Atomic error identities. The repository's `errors.go` is not under `src/`;
these atoms model, from the spec and the test files, the distinct stable error
values (`errClosedStmt`, `errNotBound`, ...), the typed parameter errors, and
engine diagnostic text. -/
inductive BaseErr where
  | closedStmt
  | uninitializedStmt
  | closedCon
  | activeRows
  | notBound
  | couldNotBind
  | appenderCreation
  | appenderDoubleClose
  | appenderAppendAfterClose
  | appenderAppendRowErr
  | appenderFlushTag
  | appenderCloseTag
  | invalidatedAppender
  | paramIndexOOR (n : Nat) (count : Nat)
  | argCount (haveN : Nat) (wantN : Nat)
  | unsupportedTypeName (nm : String)
  | paramIdxCtx (i : Nat)
  | engineMsg (msg : String)
  | hugeOverflow
  | codecMsg (msg : String)
  | ctxCode (n : Nat)
  deriving DecidableEq, Repr

/-- A Go `error` value, flattened: `[]` is Go's `nil` error, and a non-empty
list is an error whose `errors.Is`-reachable identities are the listed atoms.
`errors.Join` and the wrapping helpers of `errors.go` all preserve the set of
reachable identities, which is what the claims are about. -/
abbrev GoErr := List BaseErr

/-- Modelled from the spec: `getDuckDBError` (in the repository but not under
`src/`) converts engine diagnostic text into an error preserving that text. -/
def getDuckDBError (msg : String) : GoErr := [.engineMsg msg]

/-- Modelled from the spec: `unsupportedTypeError` (not under `src/`) builds a
typed error naming the unsupported type. -/
def unsupportedTypeError (nm : String) : GoErr := [.unsupportedTypeName nm]

/-- Modelled from the spec: `addIndexToError` (not under `src/`) wraps an error
with the offending 1-based parameter index. -/
def addIndexToError (e : GoErr) (i : Nat) : GoErr := .paramIdxCtx i :: e

/-- Go's `errors.Join` on two operands: `nil` operands are dropped. On the
flattened representation this is list append. -/
def joinErr (a b : GoErr) : GoErr := a ++ b

/-- Runtime values a caller can pass as a `driver.Value`. Each constructor is
one case of the runtime-type switch in `bindValue`; `vOther` stands for any Go
value of a type with no dedicated case (for instance `time.Time` or a slice),
which falls through to `bindComplexValue`. Floating-point payloads are carried
as opaque bit patterns. -/
inductive GoValue where
  | vNull
  | vBool (b : Bool)
  | vInt8 (v : Int)
  | vInt16 (v : Int)
  | vInt32 (v : Int)
  | vInt64 (v : Int)
  | vInt (v : Int)
  | vBigInt (v : Int)
  | vDecimal (width : Nat) (scale : Nat) (value : Int)
  | vUint8 (v : Nat)
  | vUint16 (v : Nat)
  | vUint32 (v : Nat)
  | vUint64 (v : Nat)
  | vFloat32 (bits : Nat)
  | vFloat64 (bits : Nat)
  | vString (s : String)
  | vBlob (bs : List Nat)
  | vInterval (months : Int) (days : Int) (micros : Int)
  | vOther (tag : Nat)
  deriving DecidableEq, Repr

/-- A `driver.NamedValue`: optional name, 1-based ordinal (0 when unset), and
the value. -/
structure NamedValue where
  name : String
  ordinal : Int
  value : GoValue
  deriving DecidableEq, Repr

/-- Default `NamedValue` used only as the out-of-range fallback of `List.getD`;
the embedded code never reads it under the argument-count precondition. -/
def dfltNamedValue : NamedValue := ⟨"", 0, .vNull⟩

/-- One native bind entry-point invocation, with the 1-based parameter index
and the marshalled payload. -/
inductive ApiCall where
  | bindBoolean (idx : Nat) (b : Bool)
  | bindInt8 (idx : Nat) (v : Int)
  | bindInt16 (idx : Nat) (v : Int)
  | bindInt32 (idx : Nat) (v : Int)
  | bindInt64 (idx : Nat) (v : Int)
  | bindHugeInt (idx : Nat) (v : Int)
  | bindUInt8 (idx : Nat) (v : Nat)
  | bindUInt16 (idx : Nat) (v : Nat)
  | bindUInt32 (idx : Nat) (v : Nat)
  | bindUInt64 (idx : Nat) (v : Nat)
  | bindFloat (idx : Nat) (bits : Nat)
  | bindDouble (idx : Nat) (bits : Nat)
  | bindVarchar (idx : Nat) (s : String)
  | bindBlob (idx : Nat) (bs : List Nat)
  | bindInterval (idx : Nat) (months : Int) (days : Int) (micros : Int)
  | bindNull (idx : Nat)
  | bindTimestampCall (idx : Nat) (micros : Int)
  | bindDateCall (idx : Nat) (days : Int)
  | bindTimeCall (idx : Nat) (micros : Int)
  | bindTimeTZValue (idx : Nat) (micros : Int)
  deriving DecidableEq, Repr

/-- Statement state: the flags of the `Stmt` struct. `uninit` models
`preparedStmt == nil`. -/
structure StmtState where
  bound : Bool
  closed : Bool
  rows : Bool
  uninit : Bool
  deriving DecidableEq, Repr

/-- Environment for the statement embedding: the prepared statement's declared
parameters (engine-held state read through `apiNParams`, `apiParameterName`,
`apiParamType`), the engine's accept/reject response `callOk` for each bind
entry point, the prepared statement's diagnostic text, the contents of
`unsupportedTypeToStringMap` (defined outside `src/`), and the value-codec
conversion oracles for the temporal paths (`getAPITimestamp`, `getAPIDate`,
`getTimeTicks`, also outside `src/`). -/
structure StmtEnv where
  nParams : Nat
  paramName : Nat → String
  declType : Nat → DType
  callOk : ApiCall → Bool
  prepErrMsg : String
  unsupMap : DType → Option String
  tsConv : DType → GoValue → Except GoErr Int
  dateConv : GoValue → Except GoErr Int
  timeTicksConv : GoValue → Except GoErr Int

/-- Result of one `bindValue`-level operation: the engine status (`true` =
`apiStateSuccess`), the Go error value, and the native calls made. -/
structure BindRes where
  ok : Bool
  err : GoErr
  calls : List ApiCall
  deriving DecidableEq, Repr

/-- A direct engine bind call: the status comes from the engine oracle and the
Go-level error is nil, exactly as in each primitive case of `bindValue`. -/
def engineBind (env : StmtEnv) (c : ApiCall) : BindRes :=
  ⟨env.callOk c, [], [c]⟩

/-- Modelled from the spec: `hugeIntFromNative` (not under `src/`) decomposes
an arbitrary-precision integer into the engine's 128-bit representation and
fails with an overflow error when the magnitude exceeds that range. -/
def hugeIntFromNative (v : Int) : Except GoErr Int :=
  if v < -(2 ^ 127) ∨ v > 2 ^ 127 - 1 then .error [.hugeOverflow] else .ok v

/-- Embedding of `Stmt.bindHugeint` (`statement.go`). -/
def bindHugeint (env : StmtEnv) (v : Int) (n : Nat) : BindRes :=
  match hugeIntFromNative v with
  | .error e => ⟨false, e, []⟩
  | .ok h => engineBind env (.bindHugeInt (n + 1) h)

/-- Embedding of `Stmt.bindTimestamp` (`statement.go`). -/
def bindTimestamp (env : StmtEnv) (v : GoValue) (t : DType) (n : Nat) : BindRes :=
  match env.tsConv t v with
  | .error e => ⟨false, e, []⟩
  | .ok ticks => engineBind env (.bindTimestampCall (n + 1) ticks)

/-- Embedding of `Stmt.bindDate` (`statement.go`). -/
def bindDate (env : StmtEnv) (v : GoValue) (n : Nat) : BindRes :=
  match env.dateConv v with
  | .error e => ⟨false, e, []⟩
  | .ok days => engineBind env (.bindDateCall (n + 1) days)

/-- Embedding of `Stmt.bindTime` (`statement.go`): `TYPE_TIME` binds via the
time entry point, `TYPE_TIME_TZ` builds a time-with-timezone value at UTC
offset zero and binds it via the generic value entry point. -/
def bindTime (env : StmtEnv) (v : GoValue) (t : DType) (n : Nat) : BindRes :=
  match env.timeTicksConv v with
  | .error e => ⟨false, e, []⟩
  | .ok ticks =>
    if t = .tTime then engineBind env (.bindTimeCall (n + 1) ticks)
    else engineBind env (.bindTimeTZValue (n + 1) ticks)

/-- Embedding of `Stmt.ParamType` (`statement.go`): fails on a closed or
uninitialized statement or an out-of-range 1-based index, otherwise reads the
declared type from the engine. -/
def ParamType (env : StmtEnv) (s : StmtState) (n : Nat) : Except GoErr DType :=
  if s.closed then .error [.closedStmt]
  else if s.uninit then .error [.uninitializedStmt]
  else if n = 0 ∨ n > env.nParams then .error [.paramIndexOOR n env.nParams]
  else .ok (env.declType n)

/-- Embedding of `Stmt.bindComplexValue` (`statement.go`): looks up the
declared type of parameter `n+1`, rejects types in
`unsupportedTypeToStringMap`, dispatches the supported temporal types, and
rejects the sub-second timestamp variants and the nested types with a typed
unsupported-type error carrying the 1-based index. -/
def bindComplexValue (env : StmtEnv) (s : StmtState) (v : GoValue) (n : Nat) : BindRes :=
  match ParamType env s (n + 1) with
  | .error e => ⟨false, e, []⟩
  | .ok t =>
    match env.unsupMap t with
    | some nm => ⟨false, addIndexToError (unsupportedTypeError nm) (n + 1), []⟩
    | none =>
      match t with
      | .tTimestamp => bindTimestamp env v t n
      | .tTimestampTZ => bindTimestamp env v t n
      | .tDate => bindDate env v n
      | .tTime => bindTime env v t n
      | .tTimeTZ => bindTime env v t n
      | .tTimestampS => ⟨false, addIndexToError (unsupportedTypeError (typeToStringMap t)) (n + 1), []⟩
      | .tTimestampMS => ⟨false, addIndexToError (unsupportedTypeError (typeToStringMap t)) (n + 1), []⟩
      | .tTimestampNS => ⟨false, addIndexToError (unsupportedTypeError (typeToStringMap t)) (n + 1), []⟩
      | .tList => ⟨false, addIndexToError (unsupportedTypeError (typeToStringMap t)) (n + 1), []⟩
      | .tStruct => ⟨false, addIndexToError (unsupportedTypeError (typeToStringMap t)) (n + 1), []⟩
      | .tMap => ⟨false, addIndexToError (unsupportedTypeError (typeToStringMap t)) (n + 1), []⟩
      | .tArray => ⟨false, addIndexToError (unsupportedTypeError (typeToStringMap t)) (n + 1), []⟩
      | .tEnum => ⟨false, addIndexToError (unsupportedTypeError (typeToStringMap t)) (n + 1), []⟩
      | _ => ⟨false, addIndexToError (unsupportedTypeError unknownTypeErrMsg) (n + 1), []⟩

/-- Embedding of `Stmt.bindValue` (`statement.go`): runtime-type dispatch of
the supplied value onto the dedicated primitive bind entry points; `Decimal`
values are rejected with a typed unsupported-type error; values of any other
runtime type fall through to `bindComplexValue`. -/
def bindValue (env : StmtEnv) (s : StmtState) (v : GoValue) (n : Nat) : BindRes :=
  match v with
  | .vBool b => engineBind env (.bindBoolean (n + 1) b)
  | .vInt8 x => engineBind env (.bindInt8 (n + 1) x)
  | .vInt16 x => engineBind env (.bindInt16 (n + 1) x)
  | .vInt32 x => engineBind env (.bindInt32 (n + 1) x)
  | .vInt64 x => engineBind env (.bindInt64 (n + 1) x)
  | .vInt x => engineBind env (.bindInt64 (n + 1) x)
  | .vBigInt x => bindHugeint env x n
  | .vDecimal _ _ _ =>
    ⟨false, addIndexToError (unsupportedTypeError (typeToStringMap .tDecimal)) (n + 1), []⟩
  | .vUint8 x => engineBind env (.bindUInt8 (n + 1) x)
  | .vUint16 x => engineBind env (.bindUInt16 (n + 1) x)
  | .vUint32 x => engineBind env (.bindUInt32 (n + 1) x)
  | .vUint64 x => engineBind env (.bindUInt64 (n + 1) x)
  | .vFloat32 bits => engineBind env (.bindFloat (n + 1) bits)
  | .vFloat64 bits => engineBind env (.bindDouble (n + 1) bits)
  | .vString str => engineBind env (.bindVarchar (n + 1) str)
  | .vBlob bs => engineBind env (.bindBlob (n + 1) bs)
  | .vInterval m d mi => engineBind env (.bindInterval (n + 1) m d mi)
  | .vNull => engineBind env (.bindNull (n + 1))
  | .vOther _ => bindComplexValue env s v n

/-- The Go pattern `for _, v := range args { if p v { arg = v } }`: the last
element satisfying `p` replaces the accumulator. -/
def overrideLoop (args : List NamedValue) (p : NamedValue → Bool) (acc : NamedValue) : NamedValue :=
  args.foldl (fun a v => if p v then v else a) acc

/-- Embedding of the argument-resolution step of `Stmt.bind` (`statement.go`)
for the 0-based parameter position `i`: start from the positional argument
`args[i]`, then let any argument whose `Ordinal` equals `i+1` override it, then
let any argument whose `Name` equals the parameter's declared name override
that. -/
def resolveArg (env : StmtEnv) (args : List NamedValue) (i : Nat) : NamedValue :=
  let nm := env.paramName (i + 1)
  let a0 := args.getD i dfltNamedValue
  let a1 := overrideLoop args (fun v => v.ordinal = (i : Int) + 1) a0
  overrideLoop args (fun v => v.name = nm) a1

/-- The per-parameter loop of `Stmt.bind` (`statement.go`), iterating the
0-based positions `i, i+1, ...` while `r` positions remain: resolves each
argument, binds it, and on an engine-rejected bind joins the bind error with
the prepared statement's diagnostic text and `errCouldNotBind` and aborts. -/
def bindLoop (env : StmtEnv) (s : StmtState) (args : List NamedValue) :
    Nat → Nat → GoErr × List ApiCall
  | _, 0 => ⟨[], []⟩
  | i, r + 1 =>
    let arg := resolveArg env args i
    let res := bindValue env s arg.value i
    if res.ok then
      let rest := bindLoop env s args (i + 1) r
      ⟨rest.1, res.calls ++ rest.2⟩
    else
      ⟨.couldNotBind :: (res.err ++ [.engineMsg env.prepErrMsg]), res.calls⟩

/-- Result of a bind-level operation on a statement: the updated statement
state, the returned Go error (`[]` = nil), and the native calls made. -/
structure BindOut where
  state : StmtState
  err : GoErr
  calls : List ApiCall
  deriving DecidableEq, Repr

/-- Embedding of `Stmt.bind` (`statement.go`): rejects fewer arguments than
declared parameters, binds every parameter position, and sets the `bound` flag
only after the loop completes without error. -/
def Stmt.bind (env : StmtEnv) (s : StmtState) (args : List NamedValue) : BindOut :=
  if env.nParams > args.length then
    ⟨s, [.argCount args.length env.nParams], []⟩
  else
    let r := bindLoop env s args 0 env.nParams
    if r.1 = [] then ⟨{ s with bound := true }, [], r.2⟩
    else ⟨s, r.1, r.2⟩

/-- Embedding of `Stmt.Bind` (`statement.go`): the exported entry point, which
rejects closed and uninitialized statements with errors joined onto
`errCouldNotBind`. -/
def Stmt.BindArgs (env : StmtEnv) (s : StmtState) (args : List NamedValue) : BindOut :=
  if s.closed then ⟨s, [.couldNotBind, .closedStmt], []⟩
  else if s.uninit then ⟨s, [.couldNotBind, .uninitializedStmt], []⟩
  else Stmt.bind env s args

/-- Outcome of a Go function that can either return normally, return an error,
or abort the process via a runtime panic. -/
inductive GoOutcome (α : Type) where
  | ok (a : α)
  | err (e : GoErr)
  | aborts (msg : String)
  deriving DecidableEq, Repr

/-- Whether the outcome is a returned (non-nil) error value. -/
def GoOutcome.isErrReturn {α : Type} : GoOutcome α → Bool
  | .err _ => true
  | _ => false

/-- Whether the outcome aborts the process. -/
def GoOutcome.isAbort {α : Type} : GoOutcome α → Bool
  | .aborts _ => true
  | _ => false

/-- The panic message of `Stmt.Close` on a statement with active rows. -/
def closeActiveRowsMsg : String :=
  "database/sql/driver: misuse of duckdb driver: Close with active Rows"

/-- The panic message of `Stmt.Close` on an already-closed statement. -/
def doubleCloseMsg : String :=
  "database/sql/driver: misuse of duckdb driver: double Close of Stmt"

/-- The panic message of `Stmt.execute` on a closed statement. -/
def executeClosedMsg : String :=
  "database/sql/driver: misuse of duckdb driver: ExecContext or QueryContext after Close"

/-- The panic message of `Stmt.execute` on a statement with active rows. -/
def executeActiveRowsMsg : String :=
  "database/sql/driver: misuse of duckdb driver: ExecContext or QueryContext with active Rows"

/-- Embedding of `Stmt.Close` (`statement.go`): panics on active rows or on a
second close; otherwise marks the statement closed (and destroys the prepared
statement handle via `apiDestroyPrepare`). -/
def Stmt.Close (s : StmtState) : GoOutcome StmtState :=
  if s.rows then .aborts closeActiveRowsMsg
  else if s.closed then .aborts doubleCloseMsg
  else .ok { s with closed := true }

/-- Native interactions of one `executeBound` call, in order. -/
inductive ExecEvent where
  | createPending
  | destroyPending
  | execPending
  | destroyResult
  deriving DecidableEq, Repr

/-- Environment for one `executeBound` call: whether `apiPendingPrepared`
succeeds, whether `apiExecutePending` succeeds, the corresponding engine
diagnostic texts, and the value of `ctx.Err()` at the post-execute check
(`some code` when the caller's cancellation signal has fired, the code
identifying which context error it is). -/
structure ExecEnv where
  pendingOk : Bool
  pendingErrMsg : String
  execOk : Bool
  resultErrMsg : String
  ctxErrAt : Option Nat
  deriving DecidableEq, Repr

/-- Result of an execute-level operation: updated statement state, the result
handle when execution succeeded, the returned Go error, and the native events
in order. -/
structure ExecRes where
  state : StmtState
  res : Option Unit
  err : GoErr
  events : List ExecEvent
  deriving DecidableEq, Repr

/-- Sequential embedding of `Stmt.executeBound` (`statement.go`), covering its
dataflow: pending-creation failure destroys the pending handle and surfaces
the engine text; an execute failure destroys the result handle and surfaces
`ctx.Err()` when the cancellation signal has fired, otherwise the engine's own
result error text; on success the result handle is returned. The interleaving
of the background cancellation watcher is modelled separately by
`CancelStep`. -/
def executeBoundSeq (ee : ExecEnv) (s : StmtState) : ExecRes :=
  if ¬ee.pendingOk then
    ⟨s, none, getDuckDBError ee.pendingErrMsg, [.createPending, .destroyPending]⟩
  else if ¬ee.execOk then
    match ee.ctxErrAt with
    | some code =>
      ⟨s, none, [.ctxCode code], [.createPending, .execPending, .destroyResult, .destroyPending]⟩
    | none =>
      ⟨s, none, getDuckDBError ee.resultErrMsg,
        [.createPending, .execPending, .destroyResult, .destroyPending]⟩
  else ⟨s, some (), [], [.createPending, .execPending, .destroyPending]⟩

/-- Embedding of `Stmt.ExecBound` (`statement.go`): guards against closed
statements, active rows, and unbound statements, then executes. -/
def Stmt.ExecBound (ee : ExecEnv) (s : StmtState) : ExecRes :=
  if s.closed then ⟨s, none, [.closedCon], []⟩
  else if s.rows then ⟨s, none, [.activeRows], []⟩
  else if ¬s.bound then ⟨s, none, [.notBound], []⟩
  else executeBoundSeq ee s

/-- Embedding of `Stmt.QueryBound` (`statement.go`): same guards as
`ExecBound`; on success the statement records an open result set. -/
def Stmt.QueryBound (ee : ExecEnv) (s : StmtState) : ExecRes :=
  if s.closed then ⟨s, none, [.closedCon], []⟩
  else if s.rows then ⟨s, none, [.activeRows], []⟩
  else if ¬s.bound then ⟨s, none, [.notBound], []⟩
  else
    let r := executeBoundSeq ee s
    if r.err = [] then { r with state := { r.state with rows := true } } else r

/-- Embedding of `Stmt.execute` (`statement.go`), the common path of
`ExecContext` and `QueryContext`: panics on a closed statement or active rows,
then binds the arguments and executes. -/
def Stmt.execute (env : StmtEnv) (ee : ExecEnv) (s : StmtState) (args : List NamedValue) :
    GoOutcome ExecRes :=
  if s.closed then .aborts executeClosedMsg
  else if s.rows then .aborts executeActiveRowsMsg
  else
    let b := Stmt.bind env s args
    if b.err = [] then .ok (executeBoundSeq ee b.state)
    else .ok ⟨b.state, none, b.err, []⟩

/-- Outcome kind of the engine's `apiExecutePending` call, recorded to show
that the coordinator's shutdown handshake is identical on the success path,
the engine-error path, and the cancellation path. -/
inductive ExecOutcomeKind where
  | success
  | engineError
  | cancelled
  deriving DecidableEq, Repr

/-- Program counter of the coordinator (the goroutine running `executeBound`
after `apiPendingPrepared` succeeded). -/
inductive CoordPC where
  | executing
  | execDone
  | waitingBg
  | returned
  deriving DecidableEq, Repr

/-- Program counter of the background cancellation watcher goroutine. -/
inductive WatchPC where
  | selecting
  | interrupted
  | stopped
  deriving DecidableEq, Repr

/-- Joint state of the coordinator and the watcher of one `executeBound` call:
their program counters, whether the caller's context has been cancelled, the
two channels (`mainDoneCh`, `bgDoneCh`, closed or not), and the recorded
outcome of the execute call. -/
structure CancelState where
  coord : CoordPC
  watch : WatchPC
  ctxDone : Bool
  mainClosed : Bool
  bgClosed : Bool
  outcome : Option ExecOutcomeKind
  deriving DecidableEq, Repr

/-- Initial joint state: coordinator blocked in `apiExecutePending`, watcher
blocked in its `select`; the caller's context may or may not already be
cancelled. -/
def initCancelState (ctxAlreadyDone : Bool) : CancelState :=
  ⟨.executing, .selecting, ctxAlreadyDone, false, false, none⟩

/-- Observable actions in the interleaved execution of the coordinator and the
watcher. -/
inductive CancelLabel where
  | ctxFires
  | execReturns (k : ExecOutcomeKind)
  | closeMain
  | interruptCall
  | ackStop
  | coordReturn (k : ExecOutcomeKind)
  deriving DecidableEq, Repr

/-- Small-step interleaving semantics of `executeBound`'s coordinator and its
background cancellation watcher (`statement.go`). The coordinator runs
`apiExecutePending`, closes `mainDoneCh`, waits for `bgDoneCh`, and only then
returns — on every outcome alike. The watcher, from its `select`, either
observes the cancelled context and issues `apiInterrupt` before closing
`bgDoneCh`, or observes `mainDoneCh` closed and closes `bgDoneCh` directly;
a cancelled context and a closed `mainDoneCh` may race, in which case either
branch may be taken. -/
inductive CancelStep : CancelState → CancelLabel → CancelState → Prop where
  | ctxFires (s : CancelState) :
      s.ctxDone = false →
      CancelStep s .ctxFires { s with ctxDone := true }
  | execReturns (s : CancelState) (k : ExecOutcomeKind) :
      s.coord = .executing →
      CancelStep s (.execReturns k) { s with coord := .execDone, outcome := some k }
  | closeMain (s : CancelState) :
      s.coord = .execDone →
      CancelStep s .closeMain { s with coord := .waitingBg, mainClosed := true }
  | interruptCall (s : CancelState) :
      s.watch = .selecting →
      s.ctxDone = true →
      CancelStep s .interruptCall { s with watch := .interrupted }
  | ackAfterInterrupt (s : CancelState) :
      s.watch = .interrupted →
      CancelStep s .ackStop { s with watch := .stopped, bgClosed := true }
  | ackAfterMain (s : CancelState) :
      s.watch = .selecting →
      s.mainClosed = true →
      CancelStep s .ackStop { s with watch := .stopped, bgClosed := true }
  | coordReturn (s : CancelState) (k : ExecOutcomeKind) :
      s.coord = .waitingBg →
      s.bgClosed = true →
      s.outcome = some k →
      CancelStep s (.coordReturn k) { s with coord := .returned }

/-- A finite interleaved run: `CancelTrace s ls s₂` means the system steps from
`s` to `s₂` through the labelled actions `ls` in order. -/
inductive CancelTrace : CancelState → List CancelLabel → CancelState → Prop where
  | nil (s : CancelState) : CancelTrace s [] s
  | cons {s₁ s₂ s₃ : CancelState} {l : CancelLabel} {ls : List CancelLabel} :
      CancelStep s₁ l s₂ → CancelTrace s₂ ls s₃ → CancelTrace s₁ (l :: ls) s₃

/-- Native and chunk-level interactions of the appender, in order. `initChunk`
records a successful chunk allocation (`initFromTypes`); `setValue` records a
chunk population call at a column and row of a chunk; `setSize`, `appendChunk`
and `closeChunk` are the flush-loop interactions; the remaining events are the
engine-level appender calls. -/
inductive AppEvent where
  | initChunk (id : Nat)
  | setValue (id : Nat) (col : Nat) (row : Nat) (v : GoValue)
  | setSize (id : Nat) (n : Nat)
  | appendChunk (id : Nat)
  | closeChunk (id : Nat)
  | engineFlush
  | clearColumns
  | addColumn (nm : String)
  | destroyTypes
  | destroyAppender
  deriving DecidableEq, Repr

/-- Environment for the appender embedding: the engine's global chunk capacity
(`GetDataChunkCapacity`) and the success/failure responses of the chunk layer
and the engine appender entry points (those live outside `src/`): chunk
allocation per chunk id, `SetValue` per chunk id, column and row, `SetSize`
per chunk id and size, `apiAppendDataChunk` per chunk id, `apiAppenderFlush`,
`apiAppenderClearColumns`, `apiAppenderAddColumn` per column name,
`apiAppenderDestroy`, and the engine diagnostic text. -/
structure AppEnv where
  capacity : Nat
  initOk : Nat → Bool
  setValueOk : Nat → Nat → Nat → Bool
  setSizeOk : Nat → Nat → Bool
  appendOk : Nat → Bool
  flushOk : Bool
  clearOk : Bool
  addColOk : String → Bool
  destroyOk : Bool
  errMsg : String

/-- All chunk-layer and engine responses in the environment signal success. -/
def AppEnv.allOk (env : AppEnv) : Prop :=
  (∀ i, env.initOk i = true) ∧ (∀ i c r, env.setValueOk i c r = true) ∧
  (∀ i n, env.setSizeOk i n = true) ∧ (∀ i, env.appendOk i = true) ∧
  env.flushOk = true ∧ env.clearOk = true ∧ (∀ nm, env.addColOk nm = true) ∧
  env.destroyOk = true

/-- Appender state: the fields of the `Appender` struct that the embedded
operations read and write. Buffered chunks are identified by allocation ids
drawn from `nextId`; `names` and `activeColumns` have equal length by
construction in `NewAppender`. -/
structure AppState where
  closed : Bool
  chunks : List Nat
  rowCount : Nat
  activeColumns : List Bool
  names : List String
  nextId : Nat
  deriving DecidableEq, Repr

/-- Result of an appender operation: updated state, returned Go error, and the
events in order. -/
structure AppOut where
  state : AppState
  err : GoErr
  events : List AppEvent
  deriving DecidableEq, Repr

/-- Modelled from the spec: the error returned by a failing
`DataChunk.initFromTypes` (the data-chunk layer is not under `src/`). -/
def initChunkFailErr : GoErr := [.codecMsg "init data chunk"]

/-- Modelled from the spec: the error returned by a failing
`DataChunk.SetValue` (the data-chunk layer is not under `src/`). -/
def setValueFailErr : GoErr := [.codecMsg "set value"]

/-- Modelled from the spec: the error returned by a failing
`DataChunk.SetSize` (the data-chunk layer is not under `src/`). -/
def setSizeFailErr : GoErr := [.codecMsg "set size"]

/-- Embedding of `Appender.newDataChunk` (`appender.go`): a no-op unless the
current chunk is full (`rowCount == GetDataChunkCapacity()`) or no chunk
exists yet; otherwise allocates a fresh chunk at the end of the buffer and
resets the in-chunk row counter. -/
def newDataChunk (env : AppEnv) (a : AppState) : AppOut :=
  if a.rowCount ≠ env.capacity ∧ a.chunks ≠ [] then ⟨a, [], []⟩
  else if env.initOk a.nextId then
    ⟨{ a with chunks := a.chunks ++ [a.nextId], rowCount := 0, nextId := a.nextId + 1 }, [],
      [.initChunk a.nextId]⟩
  else ⟨a, initChunkFailErr, []⟩

/-- The first loop of `Appender.appendDataChunks` (`appender.go`), iterating
over the buffered chunks at index `i` of `total`: sets each chunk's logical
size (full capacity for all but the last chunk, which gets the accumulated row
count), hands it to `apiAppendDataChunk`, and aborts the loop on the first
failure. -/
def flushLoopGo (env : AppEnv) (rc : Nat) (total : Nat) :
    Nat → List Nat → GoErr × List AppEvent
  | _, [] => ⟨[], []⟩
  | i, id :: rest =>
    let size := if i = total - 1 then rc else env.capacity
    if env.setSizeOk id size then
      if env.appendOk id then
        let r := flushLoopGo env rc total (i + 1) rest
        ⟨r.1, .setSize id size :: .appendChunk id :: r.2⟩
      else ⟨getDuckDBError env.errMsg, [.setSize id size, .appendChunk id]⟩
    else ⟨setSizeFailErr, [.setSize id size]⟩

/-- Embedding of `Appender.appendDataChunks` (`appender.go`): runs the flush
loop, then unconditionally closes every buffered chunk and resets the chunk
buffer and the row counter, returning whatever error the loop produced. -/
def appendDataChunks (env : AppEnv) (a : AppState) : AppOut :=
  let r := flushLoopGo env a.rowCount a.chunks.length 0 a.chunks
  ⟨{ a with chunks := [], rowCount := 0 }, r.1, r.2 ++ a.chunks.map (.closeChunk ·)⟩

/-- Embedding of `Appender.Flush` (`appender.go`): appends the buffered chunks
and then issues the engine-level appender flush, wrapping either failure in
the flush and invalidated-appender error contexts. -/
def Appender.Flush (env : AppEnv) (a : AppState) : AppOut :=
  let r := appendDataChunks env a
  if r.err ≠ [] then ⟨r.state, .appenderFlushTag :: .invalidatedAppender :: r.err, r.events⟩
  else if env.flushOk then ⟨r.state, [], r.events ++ [.engineFlush]⟩
  else
    ⟨r.state, [.appenderFlushTag, .invalidatedAppender, .engineMsg env.errMsg],
      r.events ++ [.engineFlush]⟩

/-- The column re-declaration loop of `Appender.changeActiveColumns`
(`appender.go`): adds each active column by name, aborting on the first
engine rejection. -/
def addColumnsLoop (env : AppEnv) : List (String × Bool) → GoErr × List AppEvent
  | [] => ⟨[], []⟩
  | (nm, active) :: rest =>
    if active then
      if env.addColOk nm then
        let r := addColumnsLoop env rest
        ⟨r.1, .addColumn nm :: r.2⟩
      else ⟨getDuckDBError env.errMsg, [.addColumn nm]⟩
    else addColumnsLoop env rest

/-- Embedding of `Appender.changeActiveColumns` (`appender.go`): flush all
buffered chunks, clear the engine's column selection, then re-declare the
currently active columns in order. -/
def changeActiveColumns (env : AppEnv) (a : AppState) : AppOut :=
  let f := Appender.Flush env a
  if f.err ≠ [] then f
  else if ¬env.clearOk then
    ⟨f.state, getDuckDBError env.errMsg, f.events ++ [.clearColumns]⟩
  else
    let r := addColumnsLoop env (f.state.names.zip f.state.activeColumns)
    ⟨f.state, r.1, f.events ++ .clearColumns :: r.2⟩

/-- Embedding of `Appender.mustChangeActiveColumnsSlice` (`appender.go`) on
the bitmap suffix starting at index `i`: positions below `k` (the number of
positional arguments) become active, positions at or above `k` become
inactive; the flag records whether anything changed. The Go function both
mutates the bitmap and returns the flag, so this returns the new bitmap with
the flag. -/
def setActiveSlice (k : Nat) : Nat → List Bool → List Bool × Bool
  | _, [] => ⟨[], false⟩
  | i, b :: rest =>
    let nb := decide (i < k)
    let r := setActiveSlice k (i + 1) rest
    ⟨nb :: r.1, (b != nb) || r.2⟩

/-- Embedding of `Appender.mustChangeActiveColumnsMap` (`appender.go`) on the
zipped (name, active) pairs: a column becomes active exactly when its name is
a key of the supplied map (`mHas`); the flag records whether anything
changed. -/
def setActiveMap (mHas : String → Bool) : List (String × Bool) → List Bool × Bool
  | [] => ⟨[], false⟩
  | (nm, b) :: rest =>
    let nb := mHas nm
    let r := setActiveMap mHas rest
    ⟨nb :: r.1, (b != nb) || r.2⟩

/-- The value-population loop of `Appender.AppendRow` (`appender.go`):
sets argument `i` at the current row of the last buffered chunk, aborting on
the first codec failure. -/
def rowLoop (env : AppEnv) (chunkId : Nat) (row : Nat) :
    Nat → List GoValue → GoErr × List AppEvent
  | _, [] => ⟨[], []⟩
  | i, v :: rest =>
    if env.setValueOk chunkId i row then
      let r := rowLoop env chunkId row (i + 1) rest
      ⟨r.1, .setValue chunkId i row v :: r.2⟩
    else ⟨setValueFailErr, [.setValue chunkId i row v]⟩

/-- The chunk-allocation and population tail of `Appender.AppendRow`
(`appender.go`): rotate to a new chunk if needed, populate the last buffered
chunk, and advance the row counter; errors are wrapped in
`errAppenderAppendRow`. `evs` carries the events of the preceding
active-column change. -/
def appendRowCore (env : AppEnv) (a : AppState) (args : List GoValue)
    (evs : List AppEvent) : AppOut :=
  let nc := newDataChunk env a
  if nc.err ≠ [] then ⟨nc.state, .appenderAppendRowErr :: nc.err, evs ++ nc.events⟩
  else
    let a2 := nc.state
    let lastId := a2.chunks.getLastD 0
    let r := rowLoop env lastId a2.rowCount 0 args
    if r.1 ≠ [] then ⟨a2, .appenderAppendRowErr :: r.1, evs ++ nc.events ++ r.2⟩
    else ⟨{ a2 with rowCount := a2.rowCount + 1 }, [], evs ++ nc.events ++ r.2⟩

/-- Embedding of `Appender.AppendRow` (`appender.go`): rejects a closed
appender; computes the implied active-column set (first `len(args)` columns
active, the rest inactive) and, when it differs from the previous set, runs
`changeActiveColumns` (which flushes) before accumulating the new row. -/
def Appender.AppendRow (env : AppEnv) (a : AppState) (args : List GoValue) : AppOut :=
  if a.closed then ⟨a, [.appenderAppendAfterClose], []⟩
  else
    let sa := setActiveSlice args.length 0 a.activeColumns
    let a1 := { a with activeColumns := sa.1 }
    if sa.2 then
      let c := changeActiveColumns env a1
      if c.err ≠ [] then ⟨c.state, .appenderAppendRowErr :: c.err, c.events⟩
      else appendRowCore env c.state args c.events
    else appendRowCore env a1 args []

/-- The value-population loop of `Appender.AppendRowMap` (`appender.go`):
sets, for each active column `i`, the map's value for that column's name at
the current row of the last buffered chunk, aborting on the first codec
failure; the error is returned unwrapped, as in the source. -/
def mapRowLoop (env : AppEnv) (chunkId : Nat) (row : Nat) (mVal : String → GoValue) :
    Nat → List (String × Bool) → GoErr × List AppEvent
  | _, [] => ⟨[], []⟩
  | i, (nm, active) :: rest =>
    if active then
      if env.setValueOk chunkId i row then
        let r := mapRowLoop env chunkId row mVal (i + 1) rest
        ⟨r.1, .setValue chunkId i row (mVal nm) :: r.2⟩
      else ⟨setValueFailErr, [.setValue chunkId i row (mVal nm)]⟩
    else mapRowLoop env chunkId row mVal (i + 1) rest

/-- The chunk-allocation and population tail of `Appender.AppendRowMap`
(`appender.go`); unlike `AppendRow`, allocation and population errors are
returned unwrapped, as in the source. -/
def appendMapCore (env : AppEnv) (a : AppState) (mVal : String → GoValue)
    (evs : List AppEvent) : AppOut :=
  let nc := newDataChunk env a
  if nc.err ≠ [] then ⟨nc.state, nc.err, evs ++ nc.events⟩
  else
    let a2 := nc.state
    let lastId := a2.chunks.getLastD 0
    let r := mapRowLoop env lastId a2.rowCount mVal 0 (a2.names.zip a2.activeColumns)
    if r.1 ≠ [] then ⟨a2, r.1, evs ++ nc.events ++ r.2⟩
    else ⟨{ a2 with rowCount := a2.rowCount + 1 }, [], evs ++ nc.events ++ r.2⟩

/-- Embedding of `Appender.AppendRowMap` (`appender.go`): rejects a closed
appender; marks exactly the named columns active and, when that differs from
the previous set, runs `changeActiveColumns` (which flushes) before
accumulating the new row. The Go map is passed as its key-membership
predicate `mHas` and lookup function `mVal`. -/
def Appender.AppendRowMap (env : AppEnv) (a : AppState) (mHas : String → Bool)
    (mVal : String → GoValue) : AppOut :=
  if a.closed then ⟨a, [.appenderAppendAfterClose], []⟩
  else
    let sa := setActiveMap mHas (a.names.zip a.activeColumns)
    let a1 := { a with activeColumns := sa.1 }
    if sa.2 then
      let c := changeActiveColumns env a1
      if c.err ≠ [] then ⟨c.state, .appenderAppendRowErr :: c.err, c.events⟩
      else appendMapCore env c.state mVal c.events
    else appendMapCore env a1 mVal []

/-- Embedding of `Appender.Close` (`appender.go`): a second close returns the
double-close usage error without doing anything; otherwise the appender is
marked closed and all three steps run unconditionally — append the remaining
buffered chunks, issue the engine-level flush, destroy the cached column
types and the appender handle — with the step errors joined into one. -/
def Appender.Close (env : AppEnv) (a : AppState) : AppOut :=
  if a.closed then ⟨a, [.appenderDoubleClose], []⟩
  else
    let r := appendDataChunks env { a with closed := true }
    let errFlush : GoErr := if env.flushOk then [] else getDuckDBError env.errMsg
    let errClose : GoErr := if env.destroyOk then [] else [.appenderCloseTag]
    let joined := r.err ++ errFlush ++ errClose
    let evs := r.events ++ [.engineFlush, .destroyTypes, .destroyAppender]
    if joined = [] then ⟨r.state, [], evs⟩
    else ⟨r.state, .invalidatedAppender :: joined, evs⟩

/-- Iterated `AppendRow` with a fixed argument list: `appendRowIter env args n
a` performs `n` successive `AppendRow` calls, collecting all events. -/
def appendRowIter (env : AppEnv) (args : List GoValue) : Nat → AppState → AppState × List AppEvent
  | 0, a => ⟨a, []⟩
  | n + 1, a =>
    let r := Appender.AppendRow env a args
    let rest := appendRowIter env args n r.state
    ⟨rest.1, r.events ++ rest.2⟩

/-- Accumulation events: chunk allocation and chunk population. Everything
else (flush-loop events, engine flush, column selection, destruction) is a
non-accumulation event. -/
def isAccumEvent : AppEvent → Bool
  | .initChunk _ => true
  | .setValue _ _ _ _ => true
  | _ => false

/-- Whether an event closes a chunk. -/
def isCloseEvent : AppEvent → Bool
  | .closeChunk _ => true
  | _ => false

/-- The sizes passed to `SetSize`, in order of occurrence. -/
def setSizesOf (evs : List AppEvent) : List Nat :=
  evs.filterMap (fun e => match e with | .setSize _ n => some n | _ => none)

/-- The last element of a list satisfying `p`, if any — the specification's
reading of an override loop: the override that applies is the final matching
argument. -/
def lastSatisfying (args : List NamedValue) (p : NamedValue → Bool) : Option NamedValue :=
  args.foldl (fun a v => if p v then some v else a) none

/-- Resolution of the argument for 0-based parameter position `i`, written
directly from the specification's words: resolve by positional index, then let
an explicit matching ordinal override that, then let an explicit matching name
override both — so a matching name override always wins. -/
def specResolve (env : StmtEnv) (args : List NamedValue) (i : Nat) : NamedValue :=
  match lastSatisfying args (fun v => v.name = env.paramName (i + 1)) with
  | some v => v
  | none =>
    match lastSatisfying args (fun v => v.ordinal = (i : Int) + 1) with
    | some v => v
    | none => args.getD i dfltNamedValue

theorem foldl_override_getD (p : NamedValue → Bool) :
    ∀ (args : List NamedValue) (o : Option NamedValue) (acc : NamedValue),
      args.foldl (fun a v => if p v then v else a) (o.getD acc) =
        (args.foldl (fun a v => if p v then some v else a) o).getD acc := by
  intro args
  induction args with
  | nil => intro o acc; rfl
  | cons a as ih =>
    intro o acc
    simp only [List.foldl_cons]
    by_cases h : p a
    · simpa [h] using ih (some a) acc
    · simpa [h] using ih o acc

theorem overrideLoop_eq (args : List NamedValue) (p : NamedValue → Bool) (acc : NamedValue) :
    overrideLoop args p acc = (lastSatisfying args p).getD acc := by
  simpa [overrideLoop, lastSatisfying] using foldl_override_getD p args none acc

/-- C2: for each declared parameter position (0-based `i` here, 1-based
`i + 1` in the source), `Stmt.bind`'s resolution (`resolveArg`) works in
priority order — the positional argument `args[i]`, overridden by the last
argument whose explicit ordinal equals `i + 1`, overridden by the last
argument whose name equals the parameter's declared name — so a matching name
override always wins over both position and ordinal. -/
theorem c2_param_resolution_priority (env : StmtEnv) (args : List NamedValue) (i : Nat) :
    resolveArg env args i = specResolve env args i ∧
    (∀ v, lastSatisfying args (fun a => a.name = env.paramName (i + 1)) = some v →
      resolveArg env args i = v) := by
  have hmain : resolveArg env args i = specResolve env args i := by
    unfold resolveArg specResolve
    rw [overrideLoop_eq, overrideLoop_eq]
    cases hn : lastSatisfying args (fun v => v.name = env.paramName (i + 1)) <;>
      cases ho : lastSatisfying args (fun v => v.ordinal = (i : Int) + 1) <;>
        simp [hn, ho]
  refine ⟨hmain, fun v hv => ?_⟩
  rw [hmain]
  unfold specResolve
  rw [hv]

/-- C5: when `apiPendingPrepared` succeeded but `apiExecutePending` failed,
`executeBound` returns the context's cancellation error if the cancellation
signal has fired (and not the engine's result error text), otherwise the
engine's own result error text; in both failure cases the native result handle
is destroyed exactly once before returning, and no result is handed back. -/
theorem c5_executeBound_error_selection (ee : ExecEnv) (s : StmtState)
    (hp : ee.pendingOk = true) (hx : ee.execOk = false) :
    (executeBoundSeq ee s).res = none ∧
    (∀ code, ee.ctxErrAt = some code →
      (executeBoundSeq ee s).err = [.ctxCode code] ∧
      BaseErr.engineMsg ee.resultErrMsg ∉ (executeBoundSeq ee s).err) ∧
    (ee.ctxErrAt = none → (executeBoundSeq ee s).err = getDuckDBError ee.resultErrMsg) ∧
    (executeBoundSeq ee s).events.count .destroyResult = 1 := by
  cases hc : ee.ctxErrAt <;>
    simp [executeBoundSeq, hp, hx, hc, List.count_cons, getDuckDBError]

theorem c5_executeBound_error_selection_witness :
    (executeBoundSeq ⟨true, "p", false, "boom", some 7⟩ ⟨false, false, false, false⟩).res = none ∧
    (executeBoundSeq ⟨true, "p", false, "boom", some 7⟩ ⟨false, false, false, false⟩).err =
      [.ctxCode 7] ∧
    BaseErr.engineMsg "boom" ∉
      (executeBoundSeq ⟨true, "p", false, "boom", some 7⟩ ⟨false, false, false, false⟩).err ∧
    (executeBoundSeq ⟨true, "p", false, "boom", some 7⟩
      ⟨false, false, false, false⟩).events.count .destroyResult = 1 := by
  have h := c5_executeBound_error_selection ⟨true, "p", false, "boom", some 7⟩
    ⟨false, false, false, false⟩ rfl rfl
  exact ⟨h.1, (h.2.1 7 rfl).1, (h.2.1 7 rfl).2, h.2.2.2⟩

/-- C10: `Stmt.bind` sets the `bound` flag to true exactly when it returns no
error; on any error (argument-count mismatch or a per-parameter bind failure)
the flag keeps its previous value, so `ExecBound` and `QueryBound` on a
statement whose only bind attempt failed still return the not-bound error. -/
theorem c10_bound_flag_only_on_success (env : StmtEnv) (ee : ExecEnv) (s : StmtState)
    (args : List NamedValue) :
    ((Stmt.bind env s args).err ≠ [] → (Stmt.bind env s args).state = s) ∧
    ((Stmt.bind env s args).err = [] → (Stmt.bind env s args).state.bound = true) ∧
    (s.bound = false → s.closed = false → s.rows = false → (Stmt.bind env s args).err ≠ [] →
      (Stmt.ExecBound ee (Stmt.bind env s args).state).err = [.notBound] ∧
      (Stmt.QueryBound ee (Stmt.bind env s args).state).err = [.notBound]) := by
  by_cases h1 : env.nParams > args.length
  · refine ⟨fun _ => by simp [Stmt.bind, h1], fun he => ?_, fun hb hc hr _ => ?_⟩
    · simp [Stmt.bind, h1] at he
    · have hst : (Stmt.bind env s args).state = s := by simp [Stmt.bind, h1]
      rw [hst]
      simp [Stmt.ExecBound, Stmt.QueryBound, hb, hc, hr]
  · by_cases h2 : (bindLoop env s args 0 env.nParams).1 = []
    · refine ⟨fun he => ?_, fun _ => by simp [Stmt.bind, h1, h2], fun _ _ _ he => ?_⟩
      · simp [Stmt.bind, h1, h2] at he
      · simp [Stmt.bind, h1, h2] at he
    · refine ⟨fun _ => by simp [Stmt.bind, h1, h2], fun he => ?_, fun hb hc hr _ => ?_⟩
      · simp [Stmt.bind, h1, h2] at he
      · have hst : (Stmt.bind env s args).state = s := by simp [Stmt.bind, h1, h2]
        rw [hst]
        simp [Stmt.ExecBound, Stmt.QueryBound, hb, hc, hr]

/-- A statement environment with a single integer parameter named "1", an
engine that accepts every bind call, and codec oracles that are never
reached. -/
def env0 : StmtEnv where
  nParams := 1
  paramName := fun _ => "1"
  declType := fun _ => .tInteger
  callOk := fun _ => true
  prepErrMsg := "prep"
  unsupMap := fun _ => none
  tsConv := fun _ _ => .error [.codecMsg "ts"]
  dateConv := fun _ => .error [.codecMsg "date"]
  timeTicksConv := fun _ => .error [.codecMsg "time"]

theorem c10_bound_flag_only_on_success_witness :
    (Stmt.bind env0 ⟨false, false, false, false⟩ []).err ≠ [] ∧
    (Stmt.bind env0 ⟨false, false, false, false⟩ []).state = ⟨false, false, false, false⟩ ∧
    (Stmt.ExecBound ⟨true, "p", true, "r", none⟩
      (Stmt.bind env0 ⟨false, false, false, false⟩ []).state).err = [.notBound] ∧
    (Stmt.QueryBound ⟨true, "p", true, "r", none⟩
      (Stmt.bind env0 ⟨false, false, false, false⟩ []).state).err = [.notBound] := by
  have h := c10_bound_flag_only_on_success env0 ⟨true, "p", true, "r", none⟩
    ⟨false, false, false, false⟩ []
  refine ⟨by decide, h.1 (by decide), ?_, ?_⟩
  · exact (h.2.2 rfl rfl rfl (by decide)).1
  · exact (h.2.2 rfl rfl rfl (by decide)).2

/-- C8 counterexample: closing an already-closed statement (closed flag set,
no active rows) does not return an identifiable error value — `Stmt.Close`
aborts the process with the double-close panic message instead. This refutes
the claim that each of these misuses is reported as a returned error value. -/
theorem c8_counterexample :
    (Stmt.Close ⟨false, true, false, false⟩).isErrReturn = false ∧
    Stmt.Close ⟨false, true, false, false⟩ = .aborts doubleCloseMsg :=
  ⟨rfl, rfl⟩

/-- C8 (amended): invoking `Bind` on a closed statement returns the stable
identity `errClosedStmt` joined with `errCouldNotBind`, and `ExecBound` and
`QueryBound` on a closed statement return the stable identity `errClosedCon`;
but closing a statement twice, and `ExecContext`/`QueryContext` (via
`execute`) on a closed statement, abort the process with distinct misuse
panic messages rather than returning an error value. The identities and
messages for the different misuses are pairwise distinct. -/
theorem c8_amended_usage_error_identities (env : StmtEnv) (ee : ExecEnv)
    (args : List NamedValue) (s : StmtState) (hc : s.closed = true) (hr : s.rows = false) :
    Stmt.Close s = .aborts doubleCloseMsg ∧
    (Stmt.BindArgs env s args).err = [.couldNotBind, .closedStmt] ∧
    (Stmt.ExecBound ee s).err = [.closedCon] ∧
    (Stmt.QueryBound ee s).err = [.closedCon] ∧
    Stmt.execute env ee s args = .aborts executeClosedMsg ∧
    ([.couldNotBind, .closedStmt] ≠ ([.closedCon] : GoErr)) ∧
    doubleCloseMsg ≠ executeClosedMsg := by
  refine ⟨?_, ?_, ?_, ?_, ?_, by decide, by decide⟩ <;>
    simp [Stmt.Close, Stmt.BindArgs, Stmt.ExecBound, Stmt.QueryBound, Stmt.execute, hc, hr]

theorem c8_amended_usage_error_identities_witness :
    ((⟨false, true, false, false⟩ : StmtState).closed = true ∧
      (⟨false, true, false, false⟩ : StmtState).rows = false) ∧
    Stmt.Close ⟨false, true, false, false⟩ = .aborts doubleCloseMsg ∧
    (Stmt.BindArgs env0 ⟨false, true, false, false⟩ []).err = [.couldNotBind, .closedStmt] ∧
    (Stmt.ExecBound ⟨true, "p", true, "r", none⟩ ⟨false, true, false, false⟩).err =
      [.closedCon] ∧
    (Stmt.QueryBound ⟨true, "p", true, "r", none⟩ ⟨false, true, false, false⟩).err =
      [.closedCon] ∧
    Stmt.execute env0 ⟨true, "p", true, "r", none⟩ ⟨false, true, false, false⟩ [] =
      .aborts executeClosedMsg ∧
    ([.couldNotBind, .closedStmt] ≠ ([.closedCon] : GoErr)) ∧
    doubleCloseMsg ≠ executeClosedMsg :=
  ⟨⟨rfl, rfl⟩,
    c8_amended_usage_error_identities env0 ⟨true, "p", true, "r", none⟩ []
      ⟨false, true, false, false⟩ rfl rfl⟩

/-- A statement environment whose single parameter's declared engine type is
`LIST`, with an engine that accepts every bind call. -/
def envList : StmtEnv where
  nParams := 1
  paramName := fun _ => "1"
  declType := fun _ => .tList
  callOk := fun _ => true
  prepErrMsg := "prep"
  unsupMap := fun _ => none
  tsConv := fun _ _ => .error [.codecMsg "ts"]
  dateConv := fun _ => .error [.codecMsg "date"]
  timeTicksConv := fun _ => .error [.codecMsg "time"]

/-- C9 counterexample: binding an `int64` argument to a parameter whose
declared type is `LIST` (a nested type) does not return an unsupported-type
error: `bindValue` dispatches on the argument's runtime type, so the value is
silently bound through `apiBindInt64` and the whole bind succeeds, marking the
statement bound. -/
theorem c9_counterexample :
    envList.declType 1 = .tList ∧
    Stmt.bind envList ⟨false, false, false, false⟩ [⟨"", 1, .vInt64 5⟩] =
      ⟨⟨true, false, false, false⟩, [], [.bindInt64 1 5]⟩ :=
  ⟨rfl, rfl⟩

/-- The declared types rejected by the explicit switch of `bindComplexValue`:
the nested/complex types and the sub-second-precision timestamp variants. -/
def nestedOrSubSecond (t : DType) : Prop :=
  t = .tTimestampS ∨ t = .tTimestampMS ∨ t = .tTimestampNS ∨ t = .tList ∨ t = .tStruct ∨
    t = .tMap ∨ t = .tArray ∨ t = .tEnum

/-- C9 (amended): when the supplied argument's runtime type has no dedicated
primitive bind case (so it reaches `bindComplexValue`) and the parameter's
declared type is a nested/complex type or a sub-second-precision timestamp
variant, the bind path returns a typed unsupported-type error naming the type
and the 1-based parameter index — whether the type is rejected by the
unsupported-type table or by the explicit switch; and every `Decimal`
argument value is rejected the same way regardless of the declared type. An
argument whose runtime type has a dedicated primitive case is bound by that
case even when the declared type is nested (see the counterexample). -/
theorem c9_amended_unsupported_types (env : StmtEnv) (s : StmtState) (n : Nat) (tag : Nat)
    (hc : s.closed = false) (hu : s.uninit = false) (hn : n + 1 ≤ env.nParams) :
    (nestedOrSubSecond (env.declType (n + 1)) →
      (env.unsupMap (env.declType (n + 1)) = none →
        bindValue env s (.vOther tag) n =
          ⟨false,
            addIndexToError (unsupportedTypeError (typeToStringMap (env.declType (n + 1))))
              (n + 1), []⟩) ∧
      (∀ nm, env.unsupMap (env.declType (n + 1)) = some nm →
        bindValue env s (.vOther tag) n =
          ⟨false, addIndexToError (unsupportedTypeError nm) (n + 1), []⟩)) ∧
    (∀ w sc x, bindValue env s (.vDecimal w sc x) n =
      ⟨false, addIndexToError (unsupportedTypeError (typeToStringMap .tDecimal)) (n + 1), []⟩) := by
  have hpt : ParamType env s (n + 1) = .ok (env.declType (n + 1)) := by
    simp [ParamType, hc, hu, Nat.not_lt.mpr hn]
  refine ⟨fun hnest => ⟨fun hmap => ?_, fun nm hmap => ?_⟩, fun w sc x => by simp [bindValue]⟩
  · rcases hnest with h | h | h | h | h | h | h | h <;>
      (rw [h] at hmap; simp [bindValue, bindComplexValue, hpt, hmap, h])
  · simp [bindValue, bindComplexValue, hpt, hmap]

theorem c9_amended_unsupported_types_witness :
    ((⟨false, false, false, false⟩ : StmtState).closed = false ∧
      (⟨false, false, false, false⟩ : StmtState).uninit = false ∧
      0 + 1 ≤ envList.nParams ∧ nestedOrSubSecond (envList.declType (0 + 1)) ∧
      envList.unsupMap (envList.declType (0 + 1)) = none) ∧
    bindValue envList ⟨false, false, false, false⟩ (.vOther 0) 0 =
      ⟨false,
        addIndexToError (unsupportedTypeError (typeToStringMap (envList.declType (0 + 1)))) 1,
        []⟩ ∧
    bindValue envList ⟨false, false, false, false⟩ (.vDecimal 4 1 125) 0 =
      ⟨false, addIndexToError (unsupportedTypeError (typeToStringMap .tDecimal)) 1, []⟩ := by
  have h := c9_amended_unsupported_types envList ⟨false, false, false, false⟩ 0 0 rfl rfl
    (by decide)
  refine ⟨⟨rfl, rfl, by decide, ?_, rfl⟩, ?_, h.2 4 1 125⟩
  · exact Or.inr (Or.inr (Or.inr (Or.inl rfl)))
  · exact (h.1 (Or.inr (Or.inr (Or.inr (Or.inl rfl))))).1 rfl

theorem c2_param_resolution_priority_witness :
    lastSatisfying [⟨"", 1, .vInt64 1⟩, ⟨"1", 0, .vString "x"⟩]
      (fun a => a.name = env0.paramName (0 + 1)) = some ⟨"1", 0, .vString "x"⟩ ∧
    resolveArg env0 [⟨"", 1, .vInt64 1⟩, ⟨"1", 0, .vString "x"⟩] 0 = ⟨"1", 0, .vString "x"⟩ :=
  ⟨rfl,
    (c2_param_resolution_priority env0 [⟨"", 1, .vInt64 1⟩, ⟨"1", 0, .vString "x"⟩] 0).2
      ⟨"1", 0, .vString "x"⟩ rfl⟩

theorem flushLoopGo_events_not_close (env : AppEnv) (rc total : Nat) :
    ∀ (ids : List Nat) (i : Nat) (e : AppEvent),
      e ∈ (flushLoopGo env rc total i ids).2 → isCloseEvent e = false := by
  intro ids
  induction ids with
  | nil => intro i e he; simp [flushLoopGo] at he
  | cons id rest ih =>
    intro i e he
    simp only [flushLoopGo] at he
    by_cases h1 : env.setSizeOk id (if i = total - 1 then rc else env.capacity) = true
    · by_cases h2 : env.appendOk id = true
      · simp [h1, h2] at he
        rcases he with h | h | h
        · subst h; rfl
        · subst h; rfl
        · exact ih (i + 1) e h
      · simp [h1, h2] at he
        rcases he with h | h <;> (subst h; rfl)
    · simp [h1] at he
      subst he; rfl

/-- C6: after every `appendDataChunks` call — the flush path used by both
`Flush` and `Close` — the buffered chunk list is empty and the row counter is
zero, whether or not an error occurred (the set-size and engine append-chunk
responses are arbitrary in `env`), and the close events are exactly one
`closeChunk` per buffered chunk, in order. -/
theorem c6_flush_releases_and_resets (env : AppEnv) (a : AppState) :
    (appendDataChunks env a).state.chunks = [] ∧
    (appendDataChunks env a).state.rowCount = 0 ∧
    (appendDataChunks env a).events.filter isCloseEvent = a.chunks.map (.closeChunk ·) ∧
    (∀ id, (appendDataChunks env a).events.count (.closeChunk id) = a.chunks.count id) := by
  refine ⟨rfl, rfl, ?_, ?_⟩
  · show ((flushLoopGo env a.rowCount a.chunks.length 0 a.chunks).2 ++
      a.chunks.map (AppEvent.closeChunk ·)).filter isCloseEvent =
        a.chunks.map (AppEvent.closeChunk ·)
    rw [List.filter_append]
    have h1 : (flushLoopGo env a.rowCount a.chunks.length 0 a.chunks).2.filter
        isCloseEvent = [] := by
      rw [List.filter_eq_nil_iff]
      intro e he
      simp [flushLoopGo_events_not_close env a.rowCount a.chunks.length a.chunks 0 e he]
    have h2 : (a.chunks.map (AppEvent.closeChunk ·)).filter isCloseEvent =
        a.chunks.map (AppEvent.closeChunk ·) := by
      rw [List.filter_eq_self]
      intro e he
      rcases List.mem_map.mp he with ⟨id, _, rfl⟩
      rfl
    rw [h1, h2, List.nil_append]
  · intro id
    show ((flushLoopGo env a.rowCount a.chunks.length 0 a.chunks).2 ++
      a.chunks.map (AppEvent.closeChunk ·)).count (AppEvent.closeChunk id) = a.chunks.count id
    rw [List.count_append]
    have h1 : (flushLoopGo env a.rowCount a.chunks.length 0 a.chunks).2.count
        (.closeChunk id) = 0 := by
      rw [List.count_eq_zero]
      intro hmem
      have := flushLoopGo_events_not_close env a.rowCount a.chunks.length a.chunks 0 _ hmem
      simp [isCloseEvent] at this
    have h2 : (a.chunks.map (AppEvent.closeChunk ·)).count (AppEvent.closeChunk id) =
        a.chunks.count id :=
      List.count_map_of_injective a.chunks _ (fun x y h => by injection h) id
    rw [h1, h2, Nat.zero_add]

/-- The joined contents of the three step errors of `Appender.Close`: the
chunk-append error, the engine-flush error, and the destroy error, in order,
with nil steps dropped — the flattened form of Go's `errors.Join`. -/
def closeErrParts (env : AppEnv) (a : AppState) : GoErr :=
  (appendDataChunks env { a with closed := true }).err ++
    (if env.flushOk then [] else getDuckDBError env.errMsg) ++
    (if env.destroyOk then [] else [.appenderCloseTag])

/-- C7: `Close` on a not-yet-closed appender runs all three steps
unconditionally — its events are the chunk-append events followed by the
engine-level flush, the destruction of the cached column types, and the
destruction of the appender handle, whatever errors occurred — and returns
the join of the three step errors (nil exactly when every step succeeded)
rather than short-circuiting at the first failure. A second `Close` returns
the double-close usage error without re-running any step, and
`AppendRow`/`AppendRowMap` after `Close` return the append-after-close usage
error without doing anything. -/
theorem c7_close_runs_all_steps (env : AppEnv) (a : AppState) (args : List GoValue)
    (mHas : String → Bool) (mVal : String → GoValue) :
    (a.closed = false →
      (Appender.Close env a).events =
        (appendDataChunks env { a with closed := true }).events ++
          [.engineFlush, .destroyTypes, .destroyAppender] ∧
      (Appender.Close env a).state.closed = true ∧
      (Appender.Close env a).err =
        (if closeErrParts env a = [] then []
         else .invalidatedAppender :: closeErrParts env a)) ∧
    (a.closed = true →
      Appender.Close env a = ⟨a, [.appenderDoubleClose], []⟩ ∧
      Appender.AppendRow env a args = ⟨a, [.appenderAppendAfterClose], []⟩ ∧
      Appender.AppendRowMap env a mHas mVal = ⟨a, [.appenderAppendAfterClose], []⟩) := by
  constructor
  · intro hcl
    refine ⟨?_, ?_, ?_⟩
    · simp [Appender.Close, hcl, apply_ite AppOut.events]
    · simp [Appender.Close, hcl, apply_ite AppOut.state, appendDataChunks]
    · simp [Appender.Close, closeErrParts, hcl, apply_ite AppOut.err]
  · intro hcl
    refine ⟨?_, ?_, ?_⟩ <;>
      simp [Appender.Close, Appender.AppendRow, Appender.AppendRowMap, hcl]

/-- An appender environment with capacity 2 in which every chunk-layer and
engine call succeeds. -/
def appEnvOk : AppEnv where
  capacity := 2
  initOk := fun _ => true
  setValueOk := fun _ _ _ => true
  setSizeOk := fun _ _ => true
  appendOk := fun _ => true
  flushOk := true
  clearOk := true
  addColOk := fun _ => true
  destroyOk := true
  errMsg := "app"

theorem c7_close_runs_all_steps_witness :
    ((Appender.Close appEnvOk ⟨false, [5], 1, [true], ["c"], 9⟩).events =
      (appendDataChunks appEnvOk ⟨true, [5], 1, [true], ["c"], 9⟩).events ++
        [.engineFlush, .destroyTypes, .destroyAppender] ∧
     (Appender.Close appEnvOk ⟨false, [5], 1, [true], ["c"], 9⟩).state.closed = true ∧
     (Appender.Close appEnvOk ⟨false, [5], 1, [true], ["c"], 9⟩).err =
       (if closeErrParts appEnvOk ⟨false, [5], 1, [true], ["c"], 9⟩ = [] then []
        else .invalidatedAppender ::
          closeErrParts appEnvOk ⟨false, [5], 1, [true], ["c"], 9⟩)) ∧
    (Appender.Close appEnvOk ⟨true, [], 0, [true], ["c"], 0⟩ =
        ⟨⟨true, [], 0, [true], ["c"], 0⟩, [.appenderDoubleClose], []⟩ ∧
      Appender.AppendRow appEnvOk ⟨true, [], 0, [true], ["c"], 0⟩ [.vInt64 1] =
        ⟨⟨true, [], 0, [true], ["c"], 0⟩, [.appenderAppendAfterClose], []⟩ ∧
      Appender.AppendRowMap appEnvOk ⟨true, [], 0, [true], ["c"], 0⟩ (fun _ => true)
        (fun _ => .vNull) = ⟨⟨true, [], 0, [true], ["c"], 0⟩, [.appenderAppendAfterClose], []⟩) :=
  ⟨(c7_close_runs_all_steps appEnvOk ⟨false, [5], 1, [true], ["c"], 9⟩ [.vInt64 1]
      (fun _ => true) (fun _ => .vNull)).1 rfl,
    (c7_close_runs_all_steps appEnvOk ⟨true, [], 0, [true], ["c"], 0⟩ [.vInt64 1]
      (fun _ => true) (fun _ => .vNull)).2 rfl⟩

theorem setActiveSlice_fst (k : Nat) :
    ∀ (l : List Bool) (i : Nat),
      (setActiveSlice k i l).1 = (List.range l.length).map (fun j => decide (i + j < k)) := by
  intro l
  induction l with
  | nil => intro i; simp [setActiveSlice]
  | cons b rest ih =>
    intro i
    have hsh : ∀ j : Nat, i + 1 + j = i + (j + 1) := by omega
    simp [setActiveSlice, ih (i + 1), List.range_succ_eq_map, List.map_map, Function.comp,
      hsh]

theorem setActiveSlice_flag (k : Nat) :
    ∀ (l : List Bool) (i : Nat),
      ((setActiveSlice k i l).2 = false ↔ (setActiveSlice k i l).1 = l) := by
  intro l
  induction l with
  | nil => intro i; simp [setActiveSlice]
  | cons b rest ih =>
    intro i
    simp only [setActiveSlice, Bool.or_eq_false_iff, bne_eq_false_iff_eq, List.cons.injEq]
    rw [ih (i + 1)]
    exact ⟨fun ⟨h1, h2⟩ => ⟨h1.symm, h2⟩, fun ⟨h1, h2⟩ => ⟨h1.symm, h2⟩⟩

theorem setActiveMap_fst (m : String → Bool) :
    ∀ ps : List (String × Bool), (setActiveMap m ps).1 = ps.map (fun p => m p.1) := by
  intro ps
  induction ps with
  | nil => simp [setActiveMap]
  | cons p rest ih => simp [setActiveMap, ih]

theorem setActiveMap_flag (m : String → Bool) :
    ∀ ps : List (String × Bool),
      ((setActiveMap m ps).2 = false ↔ (setActiveMap m ps).1 = ps.map Prod.snd) := by
  intro ps
  induction ps with
  | nil => simp [setActiveMap]
  | cons p rest ih =>
    simp only [setActiveMap, List.map_cons, Bool.or_eq_false_iff, bne_eq_false_iff_eq,
      List.cons.injEq]
    rw [ih]
    exact ⟨fun ⟨h1, h2⟩ => ⟨h1.symm, h2⟩, fun ⟨h1, h2⟩ => ⟨h1.symm, h2⟩⟩

theorem flushLoopGo_err_allOk (env : AppEnv) (hss : ∀ i n, env.setSizeOk i n = true)
    (hap : ∀ i, env.appendOk i = true) (rc total : Nat) :
    ∀ (ids : List Nat) (i : Nat), (flushLoopGo env rc total i ids).1 = [] := by
  intro ids
  induction ids with
  | nil => intro i; simp [flushLoopGo]
  | cons id rest ih => intro i; simp [flushLoopGo, hss, hap, ih (i + 1)]

theorem appendDataChunks_err_allOk (env : AppEnv) (a : AppState)
    (hss : ∀ i n, env.setSizeOk i n = true) (hap : ∀ i, env.appendOk i = true) :
    (appendDataChunks env a).err = [] :=
  flushLoopGo_err_allOk env hss hap a.rowCount a.chunks.length a.chunks 0

theorem Flush_allOk (env : AppEnv) (a : AppState) (hok : env.allOk) :
    Appender.Flush env a =
      ⟨(appendDataChunks env a).state, [], (appendDataChunks env a).events ++ [.engineFlush]⟩ := by
  obtain ⟨_, _, hss, hap, hfl, _, _, _⟩ := hok
  have he := appendDataChunks_err_allOk env a hss hap
  simp [Appender.Flush, he, hfl]

/-- The `addColumn` events re-declaring the active columns: one per active
(name, flag) pair, in order. -/
def activeAddEvents (names : List String) (act : List Bool) : List AppEvent :=
  (names.zip act).filterMap (fun p => if p.2 then some (.addColumn p.1) else none)

theorem addColumnsLoop_allOk (env : AppEnv) (hac : ∀ nm, env.addColOk nm = true) :
    ∀ ps : List (String × Bool),
      addColumnsLoop env ps =
        ⟨[], ps.filterMap (fun p => if p.2 then some (.addColumn p.1) else none)⟩ := by
  intro ps
  induction ps with
  | nil => simp [addColumnsLoop]
  | cons p rest ih =>
    by_cases hpa : p.2 = true
    · simp [addColumnsLoop, hpa, hac, ih]
    · simp [addColumnsLoop, hpa, ih, Bool.not_eq_true _ ▸ hpa]

theorem changeActiveColumns_allOk (env : AppEnv) (a : AppState) (hok : env.allOk) :
    changeActiveColumns env a =
      ⟨(appendDataChunks env a).state, [],
        (appendDataChunks env a).events ++ [.engineFlush, .clearColumns] ++
          activeAddEvents a.names a.activeColumns⟩ := by
  have hf := Flush_allOk env a hok
  obtain ⟨_, _, _, _, _, hcle, hac, _⟩ := hok
  have hst : (appendDataChunks env a).state.names = a.names := rfl
  have hst2 : (appendDataChunks env a).state.activeColumns = a.activeColumns := rfl
  simp [changeActiveColumns, hf, hcle, addColumnsLoop_allOk env hac, hst, hst2,
    activeAddEvents]

theorem rowLoop_accum (env : AppEnv) (chunkId row : Nat) :
    ∀ (args : List GoValue) (i : Nat) (e : AppEvent),
      e ∈ (rowLoop env chunkId row i args).2 → isAccumEvent e = true := by
  intro args
  induction args with
  | nil => intro i e he; simp [rowLoop] at he
  | cons v rest ih =>
    intro i e he
    by_cases hv : env.setValueOk chunkId i row = true
    · simp [rowLoop, hv] at he
      rcases he with h | h
      · subst h; rfl
      · exact ih (i + 1) e h
    · simp [rowLoop, hv] at he
      subst he; rfl

theorem mapRowLoop_accum (env : AppEnv) (chunkId row : Nat) (mVal : String → GoValue) :
    ∀ (ps : List (String × Bool)) (i : Nat) (e : AppEvent),
      e ∈ (mapRowLoop env chunkId row mVal i ps).2 → isAccumEvent e = true := by
  intro ps
  induction ps with
  | nil => intro i e he; simp [mapRowLoop] at he
  | cons p rest ih =>
    intro i e he
    by_cases hpa : p.2 = true
    · by_cases hv : env.setValueOk chunkId i row = true
      · rw [show p = (p.1, p.2) from rfl] at he
        simp [mapRowLoop, hpa, hv] at he
        rcases he with h | h
        · subst h; rfl
        · exact ih (i + 1) e h
      · rw [show p = (p.1, p.2) from rfl] at he
        simp [mapRowLoop, hpa, hv] at he
        subst he; rfl
    · rw [show p = (p.1, p.2) from rfl] at he
      simp [mapRowLoop, hpa] at he
      exact ih (i + 1) e he

theorem newDataChunk_accum (env : AppEnv) (a : AppState) (e : AppEvent)
    (he : e ∈ (newDataChunk env a).events) : isAccumEvent e = true := by
  by_cases h1 : a.rowCount ≠ env.capacity ∧ a.chunks ≠ []
  · simp [newDataChunk, h1] at he
  · by_cases h2 : env.initOk a.nextId = true
    · simp [newDataChunk, h1, h2] at he
      subst he; rfl
    · simp [newDataChunk, h1, h2] at he

theorem appendRowCore_accum (env : AppEnv) (a : AppState) (args : List GoValue)
    (evs : List AppEvent) :
    ∃ tail, (appendRowCore env a args evs).events = evs ++ tail ∧
      ∀ e ∈ tail, isAccumEvent e = true := by
  by_cases h1 : (newDataChunk env a).err ≠ []
  · refine ⟨(newDataChunk env a).events, ?_, fun e he => newDataChunk_accum env a e he⟩
    simp [appendRowCore, h1]
  · refine ⟨(newDataChunk env a).events ++
      (rowLoop env ((newDataChunk env a).state.chunks.getLastD 0)
        (newDataChunk env a).state.rowCount 0 args).2, ?_, fun e he => ?_⟩
    · simp [appendRowCore, h1, apply_ite AppOut.events, ite_self]
    · rcases List.mem_append.mp he with h | h
      · exact newDataChunk_accum env a e h
      · exact rowLoop_accum env _ _ args 0 e h

theorem appendMapCore_accum (env : AppEnv) (a : AppState) (mVal : String → GoValue)
    (evs : List AppEvent) :
    ∃ tail, (appendMapCore env a mVal evs).events = evs ++ tail ∧
      ∀ e ∈ tail, isAccumEvent e = true := by
  by_cases h1 : (newDataChunk env a).err ≠ []
  · refine ⟨(newDataChunk env a).events, ?_, fun e he => newDataChunk_accum env a e he⟩
    simp [appendMapCore, h1]
  · refine ⟨(newDataChunk env a).events ++
      (mapRowLoop env ((newDataChunk env a).state.chunks.getLastD 0)
        (newDataChunk env a).state.rowCount mVal 0
        ((newDataChunk env a).state.names.zip
          (newDataChunk env a).state.activeColumns)).2, ?_, fun e he => ?_⟩
    · simp [appendMapCore, h1, apply_ite AppOut.events, ite_self]
    · rcases List.mem_append.mp he with h | h
      · exact newDataChunk_accum env a e h
      · exact mapRowLoop_accum env _ _ mVal _ 0 e h

/-- C4: a call to `AppendRow` (positional) or `AppendRowMap` (named) computes
its implied active-column set — the first `len(args)` columns for the
positional form, exactly the named columns for the map form — and the change
flag is false exactly when that set equals the previous one. When the set
changed, the call's events are the `changeActiveColumns` events followed only
by accumulation events (the new row is accumulated strictly after), and with
a fully successful engine those change events are precisely: flush of all
buffered chunks, the engine-level flush, clearing the column selection, then
one `addColumn` per newly active column. When the set is unchanged, the call
emits only accumulation events — in particular no flush. -/
theorem c4_active_column_change_flush (env : AppEnv) (a : AppState) (args : List GoValue)
    (mHas : String → Bool) (mVal : String → GoValue)
    (hcl : a.closed = false) (hlen : a.names.length = a.activeColumns.length) :
    ((setActiveSlice args.length 0 a.activeColumns).1 =
      (List.range a.activeColumns.length).map (fun j => decide (j < args.length))) ∧
    ((setActiveSlice args.length 0 a.activeColumns).2 = false ↔
      (setActiveSlice args.length 0 a.activeColumns).1 = a.activeColumns) ∧
    ((setActiveSlice args.length 0 a.activeColumns).2 = false →
      ∀ e ∈ (Appender.AppendRow env a args).events, isAccumEvent e = true) ∧
    ((setActiveSlice args.length 0 a.activeColumns).2 = true →
      ∃ tail, (Appender.AppendRow env a args).events =
        (changeActiveColumns env
          { a with activeColumns := (setActiveSlice args.length 0 a.activeColumns).1 }).events
          ++ tail ∧ ∀ e ∈ tail, isAccumEvent e = true) ∧
    (env.allOk →
      (changeActiveColumns env
        { a with activeColumns := (setActiveSlice args.length 0 a.activeColumns).1 }).events =
        (appendDataChunks env
          { a with activeColumns := (setActiveSlice args.length 0 a.activeColumns).1 }).events
          ++ [.engineFlush, .clearColumns] ++
          activeAddEvents a.names (setActiveSlice args.length 0 a.activeColumns).1) ∧
    ((setActiveMap mHas (a.names.zip a.activeColumns)).1 = a.names.map mHas) ∧
    ((setActiveMap mHas (a.names.zip a.activeColumns)).2 = false ↔
      (setActiveMap mHas (a.names.zip a.activeColumns)).1 = a.activeColumns) ∧
    ((setActiveMap mHas (a.names.zip a.activeColumns)).2 = false →
      ∀ e ∈ (Appender.AppendRowMap env a mHas mVal).events, isAccumEvent e = true) ∧
    ((setActiveMap mHas (a.names.zip a.activeColumns)).2 = true →
      ∃ tail, (Appender.AppendRowMap env a mHas mVal).events =
        (changeActiveColumns env
          { a with activeColumns := (setActiveMap mHas (a.names.zip a.activeColumns)).1 }).events
          ++ tail ∧ ∀ e ∈ tail, isAccumEvent e = true) := by
  have hsnd : (a.names.zip a.activeColumns).map Prod.snd = a.activeColumns :=
    List.map_snd_zip a.names a.activeColumns (le_of_eq hlen.symm)
  refine ⟨?_, ?_, ?_, ?_, ?_, ?_, ?_, ?_, ?_⟩
  · simpa using setActiveSlice_fst args.length a.activeColumns 0
  · exact setActiveSlice_flag args.length a.activeColumns 0
  · intro hflag e he
    rw [Appender.AppendRow, if_neg (by simp [hcl])] at he
    simp only [hflag, Bool.false_eq_true, if_false] at he
    obtain ⟨tail, ht, hacc⟩ := appendRowCore_accum env
      { a with activeColumns := (setActiveSlice args.length 0 a.activeColumns).1 } args []
    rw [ht] at he
    exact hacc e (by simpa using he)
  · intro hflag
    rw [Appender.AppendRow, if_neg (by simp [hcl])]
    simp only [hflag, if_true]
    by_cases hce : (changeActiveColumns env
        { a with activeColumns := (setActiveSlice args.length 0 a.activeColumns).1 }).err ≠ []
    · exact ⟨[], by simp [hce], by simp⟩
    · obtain ⟨tail, ht, hacc⟩ := appendRowCore_accum env
        (changeActiveColumns env
          { a with activeColumns := (setActiveSlice args.length 0 a.activeColumns).1 }).state
        args
        (changeActiveColumns env
          { a with activeColumns := (setActiveSlice args.length 0 a.activeColumns).1 }).events
      refine ⟨tail, ?_, hacc⟩
      simp only [hce, if_false]
      simpa using ht
  · intro hok
    rw [changeActiveColumns_allOk env _ hok]
  · rw [setActiveMap_fst]
    rw [show (fun p : String × Bool => mHas p.1) = (mHas ∘ Prod.fst) from rfl]
    rw [← List.map_map, List.map_fst_zip a.names a.activeColumns (le_of_eq hlen)]
  · rw [setActiveMap_flag, hsnd]
  · intro hflag e he
    rw [Appender.AppendRowMap, if_neg (by simp [hcl])] at he
    simp only [hflag, Bool.false_eq_true, if_false] at he
    obtain ⟨tail, ht, hacc⟩ := appendMapCore_accum env
      { a with activeColumns := (setActiveMap mHas (a.names.zip a.activeColumns)).1 } mVal []
    rw [ht] at he
    exact hacc e (by simpa using he)
  · intro hflag
    rw [Appender.AppendRowMap, if_neg (by simp [hcl])]
    simp only [hflag, if_true]
    by_cases hce : (changeActiveColumns env
        { a with activeColumns := (setActiveMap mHas (a.names.zip a.activeColumns)).1 }).err ≠ []
    · exact ⟨[], by simp [hce], by simp⟩
    · obtain ⟨tail, ht, hacc⟩ := appendMapCore_accum env
        (changeActiveColumns env
          { a with activeColumns := (setActiveMap mHas (a.names.zip a.activeColumns)).1 }).state
        mVal
        (changeActiveColumns env
          { a with activeColumns := (setActiveMap mHas (a.names.zip a.activeColumns)).1 }).events
      refine ⟨tail, ?_, hacc⟩
      simp only [hce, if_false]
      simpa using ht

theorem c4_active_column_change_flush_witness :
    (setActiveSlice 1 0 [true, true]).2 = true ∧
    (∃ tail, (Appender.AppendRow appEnvOk ⟨false, [], 0, [true, true], ["x", "y"], 0⟩
        [.vInt64 1]).events =
      (changeActiveColumns appEnvOk
        ⟨false, [], 0, (setActiveSlice 1 0 [true, true]).1, ["x", "y"], 0⟩).events ++ tail ∧
      ∀ e ∈ tail, isAccumEvent e = true) ∧
    (changeActiveColumns appEnvOk
      ⟨false, [], 0, (setActiveSlice 1 0 [true, true]).1, ["x", "y"], 0⟩).events =
      (appendDataChunks appEnvOk
        ⟨false, [], 0, (setActiveSlice 1 0 [true, true]).1, ["x", "y"], 0⟩).events ++
        [.engineFlush, .clearColumns] ++
        activeAddEvents ["x", "y"] (setActiveSlice 1 0 [true, true]).1 := by
  have h := c4_active_column_change_flush appEnvOk
    ⟨false, [], 0, [true, true], ["x", "y"], 0⟩ [.vInt64 1]
    (fun nm => nm == "x") (fun _ => .vNull) rfl rfl
  have hok : appEnvOk.allOk :=
    ⟨fun _ => rfl, fun _ _ _ => rfl, fun _ _ => rfl, fun _ => rfl, rfl, rfl, fun _ => rfl, rfl⟩
  exact ⟨by decide, h.2.2.2.1 (by decide), h.2.2.2.2.1 hok⟩

theorem rowLoop_err_allOk (env : AppEnv) (chunkId row : Nat)
    (hsv : ∀ i c r, env.setValueOk i c r = true) :
    ∀ (args : List GoValue) (i : Nat), (rowLoop env chunkId row i args).1 = [] := by
  intro args
  induction args with
  | nil => intro i; simp [rowLoop]
  | cons v rest ih => intro i; simp [rowLoop, hsv, ih (i + 1)]

theorem rowLoop_setValue_id (env : AppEnv) (chunkId row : Nat) :
    ∀ (args : List GoValue) (i : Nat) (id col r : Nat) (v : GoValue),
      AppEvent.setValue id col r v ∈ (rowLoop env chunkId row i args).2 → id = chunkId := by
  intro args
  induction args with
  | nil => intro i id col r v h; simp [rowLoop] at h
  | cons w rest ih =>
    intro i id col r v h
    by_cases hv : env.setValueOk chunkId i row = true
    · simp [rowLoop, hv] at h
      rcases h with ⟨h, _⟩ | h
      · exact h
      · exact ih (i + 1) id col r v h
    · simp [rowLoop, hv] at h
      exact h.1

/-- One successful `AppendRow` call with an unchanged active-column set:
either the current chunk still has room and only the row counter advances, or
a fresh chunk is allocated first; the call returns no error. -/
theorem appendRow_step (env : AppEnv) (b : AppState) (args : List GoValue)
    (hok : env.allOk) (hcl : b.closed = false)
    (hact : (setActiveSlice args.length 0 b.activeColumns).2 = false) :
    (Appender.AppendRow env b args).state =
      (if b.rowCount ≠ env.capacity ∧ b.chunks ≠ [] then
        { b with rowCount := b.rowCount + 1 }
      else
        { b with chunks := b.chunks ++ [b.nextId], rowCount := 1, nextId := b.nextId + 1 }) ∧
    (Appender.AppendRow env b args).err = [] := by
  obtain ⟨hini, hsv, _, _, _, _, _, _⟩ := hok
  have hfst : (setActiveSlice args.length 0 b.activeColumns).1 = b.activeColumns :=
    (setActiveSlice_flag args.length b.activeColumns 0).mp hact
  have hb : ({ b with activeColumns := (setActiveSlice args.length 0 b.activeColumns).1 } :
      AppState) = b := by
    rw [hfst]
  rw [Appender.AppendRow, if_neg (by simp [hcl])]
  simp only [hact, Bool.false_eq_true, if_false, hb]
  by_cases hfull : b.rowCount ≠ env.capacity ∧ b.chunks ≠ []
  · have hnc : newDataChunk env b = ⟨b, [], []⟩ := by
      rw [newDataChunk, if_pos hfull]
    simp [appendRowCore, hnc, rowLoop_err_allOk env _ _ hsv, hfull]
  · have hnc : newDataChunk env b =
        ⟨{ b with chunks := b.chunks ++ [b.nextId], rowCount := 0, nextId := b.nextId + 1 },
          [], [.initChunk b.nextId]⟩ := by
      rw [newDataChunk, if_neg hfull, if_pos (hini b.nextId)]
    simp [appendRowCore, hnc, rowLoop_err_allOk env _ _ hsv, hfull]

/-- The chunk-count invariant of the appender after `N` successful appends
with capacity `cap`: no chunks and no rows when `N = 0`, otherwise a non-empty
chunk list whose all-but-last chunks are full and whose last chunk holds
`rowCount ∈ [1, cap]` rows, with `N` accounted for exactly. -/
def chunkInv (cap N : Nat) (b : AppState) : Prop :=
  (N = 0 → b.chunks = [] ∧ b.rowCount = 0) ∧
  (N ≠ 0 → b.chunks ≠ [] ∧ 1 ≤ b.rowCount ∧ b.rowCount ≤ cap ∧
    N = (b.chunks.length - 1) * cap + b.rowCount)

theorem appendRow_step_inv (env : AppEnv) (args : List GoValue) (hok : env.allOk)
    (hcap : 0 < env.capacity) (b : AppState) (N : Nat) (hcl : b.closed = false)
    (hact : (setActiveSlice args.length 0 b.activeColumns).2 = false)
    (hinv : chunkInv env.capacity N b) :
    chunkInv env.capacity (N + 1) (Appender.AppendRow env b args).state ∧
    (Appender.AppendRow env b args).state.closed = false ∧
    (Appender.AppendRow env b args).state.activeColumns = b.activeColumns ∧
    (Appender.AppendRow env b args).state.names = b.names := by
  obtain ⟨hst, -⟩ := appendRow_step env b args hok hcl hact
  by_cases hfull : b.rowCount ≠ env.capacity ∧ b.chunks ≠ []
  · obtain ⟨hf1, hf2⟩ := hfull
    rw [hst, if_pos ⟨hf1, hf2⟩]
    refine ⟨⟨fun h => by omega, fun _ => ?_⟩, hcl, rfl, rfl⟩
    have hN : N ≠ 0 := by
      intro h0
      exact hf2 (hinv.1 h0).1
    obtain ⟨hne, h1, h2, heq⟩ := hinv.2 hN
    exact ⟨hf2, by dsimp only; omega, by dsimp only; omega, by dsimp only; omega⟩
  · rw [hst, if_neg hfull]
    refine ⟨⟨fun h => by omega, fun _ => ?_⟩, hcl, rfl, rfl⟩
    refine ⟨by simp, by simp, by simpa using hcap, ?_⟩
    simp only [List.length_append, List.length_cons, List.length_nil]
    by_cases hN : N = 0
    · obtain ⟨hch, hrc⟩ := hinv.1 hN
      simp [hN, hch, hrc]
    · obtain ⟨hne, h1, h2, heq⟩ := hinv.2 hN
      have hrc : b.rowCount = env.capacity := by
        push_neg at hfull
        by_contra hx
        exact hne (hfull hx)
      have hlen : 1 ≤ b.chunks.length := List.length_pos.mpr hne
      have hmul : (b.chunks.length - 1) * env.capacity + env.capacity =
          b.chunks.length * env.capacity := by
        have hs : b.chunks.length - 1 + 1 = b.chunks.length := by omega
        calc (b.chunks.length - 1) * env.capacity + env.capacity
            = (b.chunks.length - 1 + 1) * env.capacity := by rw [Nat.succ_mul]
          _ = b.chunks.length * env.capacity := by rw [hs]
      have hsub : b.chunks.length + 1 - 1 = b.chunks.length := by omega
      rw [hsub, heq, hrc]
      omega

theorem appendRowIter_inv (env : AppEnv) (args : List GoValue) (hok : env.allOk)
    (hcap : 0 < env.capacity) :
    ∀ (n N : Nat) (b : AppState), b.closed = false →
      (setActiveSlice args.length 0 b.activeColumns).2 = false →
      chunkInv env.capacity N b →
      chunkInv env.capacity (N + n) (appendRowIter env args n b).1 ∧
      (appendRowIter env args n b).1.closed = false ∧
      (appendRowIter env args n b).1.activeColumns = b.activeColumns := by
  intro n
  induction n with
  | zero => intro N b hcl hact hinv; exact ⟨hinv, hcl, rfl⟩
  | succ n ih =>
    intro N b hcl hact hinv
    obtain ⟨hinv1, hcl1, hac1, -⟩ := appendRow_step_inv env args hok hcap b N hcl hact hinv
    have hact1 : (setActiveSlice args.length 0
        (Appender.AppendRow env b args).state.activeColumns).2 = false := by
      rw [hac1]; exact hact
    obtain ⟨hi, hc, ha⟩ := ih (N + 1) (Appender.AppendRow env b args).state hcl1 hact1 hinv1
    have heq : N + 1 + n = N + (n + 1) := by omega
    rw [heq] at hi
    refine ⟨?_, ?_, ?_⟩
    · show chunkInv env.capacity (N + (n + 1))
        (appendRowIter env args n (Appender.AppendRow env b args).state).1
      exact hi
    · show (appendRowIter env args n (Appender.AppendRow env b args).state).1.closed = false
      exact hc
    · show (appendRowIter env args n
        (Appender.AppendRow env b args).state).1.activeColumns = b.activeColumns
      rw [ha, hac1]

theorem chunkInv_length_ceil (cap N : Nat) (b : AppState) (hcap : 0 < cap)
    (hinv : chunkInv cap N b) : b.chunks.length = (N + cap - 1) / cap := by
  by_cases hN : N = 0
  · obtain ⟨hch, -⟩ := hinv.1 hN
    rw [hN, hch]
    simp [Nat.div_eq_of_lt (show cap - 1 < cap by omega)]
  · obtain ⟨hne, h1, h2, heq⟩ := hinv.2 hN
    have hlen : 1 ≤ b.chunks.length := List.length_pos.mpr hne
    have hmul : (b.chunks.length - 1) * cap + cap = b.chunks.length * cap := by
      have hs : b.chunks.length - 1 + 1 = b.chunks.length := by omega
      calc (b.chunks.length - 1) * cap + cap
          = (b.chunks.length - 1 + 1) * cap := by rw [Nat.succ_mul]
        _ = b.chunks.length * cap := by rw [hs]
    have harr : N + cap - 1 = (b.rowCount - 1) + b.chunks.length * cap := by omega
    rw [harr, Nat.add_mul_div_right _ _ hcap, Nat.div_eq_of_lt (by omega)]
    omega

theorem flushLoopGo_sizes (env : AppEnv) (hss : ∀ i n, env.setSizeOk i n = true)
    (hap : ∀ i, env.appendOk i = true) (rc total : Nat) :
    ∀ (ids : List Nat) (i : Nat),
      setSizesOf (flushLoopGo env rc total i ids).2 =
        (List.range ids.length).map
          (fun j => if i + j = total - 1 then rc else env.capacity) := by
  intro ids
  induction ids with
  | nil => intro i; simp [flushLoopGo, setSizesOf]
  | cons id rest ih =>
    intro i
    have hsh : ∀ j : Nat, i + 1 + j = i + (j + 1) := by omega
    simp only [flushLoopGo, hss, hap, if_true, List.length_cons, List.range_succ_eq_map,
      List.map_cons, List.map_map]
    rw [setSizesOf, List.filterMap_cons, List.filterMap_cons]
    rw [← setSizesOf, ih (i + 1)]
    simp [Function.comp, hsh, Nat.succ_eq_add_one]

theorem setSizesOf_closeChunks (ids : List Nat) :
    setSizesOf (ids.map (AppEvent.closeChunk ·)) = [] := by
  induction ids with
  | nil => rfl
  | cons id rest ih => simp [setSizesOf]

theorem appendDataChunks_sizes (env : AppEnv) (a : AppState)
    (hss : ∀ i n, env.setSizeOk i n = true) (hap : ∀ i, env.appendOk i = true) :
    setSizesOf (appendDataChunks env a).events =
      (List.range a.chunks.length).map
        (fun j => if j = a.chunks.length - 1 then a.rowCount else env.capacity) := by
  show setSizesOf ((flushLoopGo env a.rowCount a.chunks.length 0 a.chunks).2 ++
    a.chunks.map (AppEvent.closeChunk ·)) = _
  rw [setSizesOf, List.filterMap_append, ← setSizesOf, ← setSizesOf,
    setSizesOf_closeChunks, List.append_nil, flushLoopGo_sizes env hss hap]
  simp

theorem appendRow_targets_last (env : AppEnv) (b : AppState) (args : List GoValue)
    (hcl : b.closed = false)
    (hact : (setActiveSlice args.length 0 b.activeColumns).2 = false) :
    ∀ (id col row : Nat) (v : GoValue),
      AppEvent.setValue id col row v ∈ (Appender.AppendRow env b args).events →
      id = (Appender.AppendRow env b args).state.chunks.getLastD 0 := by
  intro id col row v h
  have hfst : (setActiveSlice args.length 0 b.activeColumns).1 = b.activeColumns :=
    (setActiveSlice_flag args.length b.activeColumns 0).mp hact
  have hb : ({ b with activeColumns := (setActiveSlice args.length 0 b.activeColumns).1 } :
      AppState) = b := by rw [hfst]
  rw [Appender.AppendRow, if_neg (by simp [hcl])] at h ⊢
  simp only [hact, Bool.false_eq_true, if_false, hb] at h ⊢
  by_cases hfull : b.rowCount ≠ env.capacity ∧ b.chunks ≠ []
  · have hnc : newDataChunk env b = ⟨b, [], []⟩ := by
      rw [newDataChunk, if_pos hfull]
    simp only [appendRowCore, hnc, ne_eq, not_true_eq_false, if_false, if_neg,
      apply_ite AppOut.events, apply_ite AppOut.state, apply_ite AppState.chunks] at h ⊢
    simp only [ite_self] at h ⊢
    simp only [List.nil_append] at h
    exact rowLoop_setValue_id env _ _ args 0 id col row v h
  · by_cases hini : env.initOk b.nextId = true
    · have hnc : newDataChunk env b =
          ⟨{ b with chunks := b.chunks ++ [b.nextId], rowCount := 0, nextId := b.nextId + 1 },
            [], [.initChunk b.nextId]⟩ := by
        rw [newDataChunk, if_neg hfull, if_pos hini]
      simp only [appendRowCore, hnc, ne_eq, not_true_eq_false, if_false, if_neg,
        apply_ite AppOut.events, apply_ite AppOut.state, apply_ite AppState.chunks] at h ⊢
      simp only [ite_self] at h ⊢
      simp only [List.nil_append, List.singleton_append, List.mem_cons] at h
      rcases h with h | h
      · exact absurd h (by simp)
      · exact rowLoop_setValue_id env _ _ args 0 id col row v h
    · have hnc : newDataChunk env b = ⟨b, initChunkFailErr, []⟩ := by
        rw [newDataChunk, if_neg hfull, if_neg hini]
      simp only [appendRowCore, hnc] at h
      simp [initChunkFailErr] at h

theorem rangeMapDropLast (f : Nat → Nat) (k : Nat) :
    ((List.range k).map f).dropLast = (List.range (k - 1)).map f := by
  cases k with
  | zero => simp
  | succ m => rw [List.range_succ, List.map_append]; simp

theorem rangeMapGetLast (f : Nat → Nat) (m : Nat) :
    ((List.range (m + 1)).map f).getLast? = some (f m) := by
  rw [List.range_succ, List.map_append]; simp

/-- C3: starting from a fresh appender and appending `N` rows with an
unchanged active-column set against a fully successful engine, the buffered
chunk count equals `ceil(N / capacity)`; at the flush, one `SetSize` is issued
per chunk, every chunk except the last gets logical size exactly `capacity`,
and the last gets the accumulated row count. Moreover `newDataChunk` is a
no-op whenever a chunk exists and is not full (a new chunk is allocated only
when none exists or the current one is full), and every population event of an
`AppendRow` call targets the last buffered chunk. -/
theorem c3_capacity_invariant (env : AppEnv) (a0 : AppState) (args : List GoValue) (N : Nat)
    (hcap : 0 < env.capacity) (hok : env.allOk) (hcl : a0.closed = false)
    (hch : a0.chunks = []) (hrc : a0.rowCount = 0)
    (hact : (setActiveSlice args.length 0 a0.activeColumns).2 = false) :
    (appendRowIter env args N a0).1.chunks.length = (N + env.capacity - 1) / env.capacity ∧
    (setSizesOf (appendDataChunks env (appendRowIter env args N a0).1).events).length =
      (appendRowIter env args N a0).1.chunks.length ∧
    (setSizesOf (appendDataChunks env (appendRowIter env args N a0).1).events).dropLast =
      List.replicate ((appendRowIter env args N a0).1.chunks.length - 1) env.capacity ∧
    (N ≠ 0 →
      (setSizesOf (appendDataChunks env (appendRowIter env args N a0).1).events).getLast? =
        some (appendRowIter env args N a0).1.rowCount) ∧
    (∀ b : AppState, b.rowCount ≠ env.capacity → b.chunks ≠ [] →
      newDataChunk env b = ⟨b, [], []⟩) ∧
    (∀ b : AppState, b.closed = false →
      (setActiveSlice args.length 0 b.activeColumns).2 = false →
      ∀ (id col row : Nat) (v : GoValue),
        AppEvent.setValue id col row v ∈ (Appender.AppendRow env b args).events →
        id = (Appender.AppendRow env b args).state.chunks.getLastD 0) := by
  obtain ⟨-, -, hss, hap, -, -, -, -⟩ := id hok
  have hinv0 : chunkInv env.capacity 0 a0 := ⟨fun _ => ⟨hch, hrc⟩, fun h => absurd rfl h⟩
  obtain ⟨hinvN, -, -⟩ := appendRowIter_inv env args hok hcap N 0 a0 hcl hact hinv0
  rw [Nat.zero_add] at hinvN
  have hlen := chunkInv_length_ceil env.capacity N (appendRowIter env args N a0).1 hcap hinvN
  have hsizes := appendDataChunks_sizes env (appendRowIter env args N a0).1 hss hap
  refine ⟨hlen, ?_, ?_, ?_, ?_, ?_⟩
  · rw [hsizes]; simp
  · rw [hsizes, rangeMapDropLast]
    have hcg : ∀ j ∈ List.range ((appendRowIter env args N a0).1.chunks.length - 1),
        (if j = (appendRowIter env args N a0).1.chunks.length - 1 then
          (appendRowIter env args N a0).1.rowCount else env.capacity) = env.capacity := by
      intro j hj
      rw [if_neg]
      have := List.mem_range.mp hj
      omega
    rw [List.map_congr_left hcg]
    simp
  · intro hN
    obtain ⟨hne, -, -, -⟩ := hinvN.2 hN
    obtain ⟨m, hm⟩ : ∃ m, (appendRowIter env args N a0).1.chunks.length = m + 1 :=
      ⟨(appendRowIter env args N a0).1.chunks.length - 1, by
        have := List.length_pos.mpr hne; omega⟩
    rw [hsizes, hm, rangeMapGetLast]
    simp
  · intro b h1 h2
    rw [newDataChunk, if_pos ⟨h1, h2⟩]
  · intro b hclb hactb id col row v hmem
    exact appendRow_targets_last env b args hclb hactb id col row v hmem

theorem c3_capacity_invariant_witness :
    (appendRowIter appEnvOk [.vInt64 7] 3 ⟨false, [], 0, [true], ["x"], 0⟩).1.chunks.length =
      (3 + appEnvOk.capacity - 1) / appEnvOk.capacity ∧
    (setSizesOf (appendDataChunks appEnvOk
      (appendRowIter appEnvOk [.vInt64 7] 3 ⟨false, [], 0, [true], ["x"], 0⟩).1).events).length =
      (appendRowIter appEnvOk [.vInt64 7] 3 ⟨false, [], 0, [true], ["x"], 0⟩).1.chunks.length ∧
    (setSizesOf (appendDataChunks appEnvOk
      (appendRowIter appEnvOk [.vInt64 7] 3 ⟨false, [], 0, [true], ["x"], 0⟩).1).events).dropLast =
      List.replicate
        ((appendRowIter appEnvOk [.vInt64 7] 3 ⟨false, [], 0, [true], ["x"], 0⟩).1.chunks.length
          - 1) appEnvOk.capacity ∧
    (setSizesOf (appendDataChunks appEnvOk
      (appendRowIter appEnvOk [.vInt64 7] 3 ⟨false, [], 0, [true], ["x"], 0⟩).1).events).getLast? =
      some (appendRowIter appEnvOk [.vInt64 7] 3 ⟨false, [], 0, [true], ["x"], 0⟩).1.rowCount := by
  have hok : appEnvOk.allOk :=
    ⟨fun _ => rfl, fun _ _ _ => rfl, fun _ _ => rfl, fun _ => rfl, rfl, rfl, fun _ => rfl, rfl⟩
  have h := c3_capacity_invariant appEnvOk ⟨false, [], 0, [true], ["x"], 0⟩ [.vInt64 7] 3
    (by decide) hok rfl rfl rfl (by decide)
  exact ⟨h.1, h.2.1, h.2.2.1, h.2.2.2.1 (by decide)⟩

theorem cancelStep_inv {s s₂ : CancelState} {l : CancelLabel} (h : CancelStep s l s₂)
    (hinv : s.bgClosed = true → s.watch = .stopped) :
    s₂.bgClosed = true → s₂.watch = .stopped := by
  cases h <;> intro hbg <;> simp_all

theorem cancelTrace_inv {s s₂ : CancelState} {tr : List CancelLabel}
    (h : CancelTrace s tr s₂) (hinv : s.bgClosed = true → s.watch = .stopped) :
    s₂.bgClosed = true → s₂.watch = .stopped := by
  induction h with
  | nil => exact hinv
  | cons hstep _ ih => exact ih (cancelStep_inv hstep hinv)

theorem cancelStep_coordInv {s s₂ : CancelState} {l : CancelLabel} (h : CancelStep s l s₂)
    (hinv : s.coord = .returned → s.bgClosed = true) :
    s₂.coord = .returned → s₂.bgClosed = true := by
  cases h <;> intro hret <;> simp_all

theorem cancelTrace_coordInv {s s₂ : CancelState} {tr : List CancelLabel}
    (h : CancelTrace s tr s₂) (hinv : s.coord = .returned → s.bgClosed = true) :
    s₂.coord = .returned → s₂.bgClosed = true := by
  induction h with
  | nil => exact hinv
  | cons hstep _ ih => exact ih (cancelStep_coordInv hstep hinv)

theorem cancelStep_stopped {s s₂ : CancelState} {l : CancelLabel} (h : CancelStep s l s₂)
    (hw : s.watch = .stopped) : s₂.watch = .stopped ∧ l ≠ .interruptCall := by
  cases h <;> simp_all

theorem cancelTrace_stopped {s s₂ : CancelState} {tr : List CancelLabel}
    (h : CancelTrace s tr s₂) (hw : s.watch = .stopped) :
    CancelLabel.interruptCall ∉ tr := by
  induction h with
  | nil => exact List.not_mem_nil _
  | cons hstep _ ih =>
    intro hmem
    obtain ⟨hw2, hne⟩ := cancelStep_stopped hstep hw
    rcases List.mem_cons.mp hmem with he | he
    · exact hne he.symm
    · exact ih hw2 he

theorem cancelTrace_append {tr₁ : List CancelLabel} :
    ∀ {s s₃ : CancelState} {l : CancelLabel} {tr₂ : List CancelLabel},
      CancelTrace s (tr₁ ++ l :: tr₂) s₃ →
      ∃ sm sm2, CancelTrace s tr₁ sm ∧ CancelStep sm l sm2 ∧ CancelTrace sm2 tr₂ s₃ := by
  induction tr₁ with
  | nil =>
    intro s s₃ l tr₂ h
    cases h with
    | cons hstep htr => exact ⟨s, _, .nil s, hstep, htr⟩
  | cons a as ih =>
    intro s s₃ l tr₂ h
    cases h with
    | cons hstep htr =>
      obtain ⟨sm, sm2, h1, h2, h3⟩ := ih htr
      exact ⟨sm, sm2, .cons hstep h1, h2, h3⟩

/-- C1: in every interleaved run of `executeBound`'s coordinator and its
background cancellation watcher (from any initial cancellation status), the
coordinator reaches `returned` only after the watcher has acknowledged
shutdown — whatever the recorded outcome of the execute call (success, engine
error, or cancellation) — and no `apiInterrupt` call ever occurs after the
coordinator has returned, nor after the watcher has acknowledged shutdown: an
interrupt cannot leak into a subsequent call on the same connection. -/
theorem c1_interrupt_never_after_return (b : Bool) (tr : List CancelLabel) (s : CancelState)
    (htr : CancelTrace (initCancelState b) tr s) :
    (s.coord = .returned → s.bgClosed = true ∧ s.watch = .stopped) ∧
    (∀ (tr₁ tr₂ : List CancelLabel) (k : ExecOutcomeKind),
      tr = tr₁ ++ .coordReturn k :: tr₂ → CancelLabel.interruptCall ∉ tr₂) ∧
    (∀ tr₁ tr₂ : List CancelLabel,
      tr = tr₁ ++ .ackStop :: tr₂ → CancelLabel.interruptCall ∉ tr₂) := by
  refine ⟨?_, ?_, ?_⟩
  · intro hret
    have hbg : s.bgClosed = true :=
      cancelTrace_coordInv htr (by simp [initCancelState]) hret
    exact ⟨hbg, cancelTrace_inv htr (by simp [initCancelState]) hbg⟩
  · intro tr₁ tr₂ k heq
    subst heq
    obtain ⟨sm, sm2, h1, h2, h3⟩ := cancelTrace_append htr
    have hbg : sm.bgClosed = true := by cases h2; assumption
    have hw : sm.watch = .stopped :=
      cancelTrace_inv h1 (by simp [initCancelState]) hbg
    have hw2 : sm2.watch = .stopped := by
      cases h2
      simpa using hw
    exact cancelTrace_stopped h3 hw2
  · intro tr₁ tr₂ heq
    subst heq
    obtain ⟨sm, sm2, h1, h2, h3⟩ := cancelTrace_append htr
    have hw2 : sm2.watch = .stopped := by cases h2 <;> rfl
    exact cancelTrace_stopped h3 hw2

theorem c1_interrupt_never_after_return_witness :
    ((⟨.returned, .stopped, false, true, true, some .success⟩ : CancelState).coord =
        .returned →
      (⟨.returned, .stopped, false, true, true, some .success⟩ : CancelState).bgClosed = true ∧
      (⟨.returned, .stopped, false, true, true, some .success⟩ : CancelState).watch =
        .stopped) ∧
    (∀ (tr₁ tr₂ : List CancelLabel) (k : ExecOutcomeKind),
      [CancelLabel.execReturns .success, .closeMain, .ackStop, .coordReturn .success] =
        tr₁ ++ .coordReturn k :: tr₂ → CancelLabel.interruptCall ∉ tr₂) ∧
    (∀ tr₁ tr₂ : List CancelLabel,
      [CancelLabel.execReturns .success, .closeMain, .ackStop, .coordReturn .success] =
        tr₁ ++ .ackStop :: tr₂ → CancelLabel.interruptCall ∉ tr₂) := by
  have htr : CancelTrace (initCancelState false)
      [CancelLabel.execReturns .success, .closeMain, .ackStop, .coordReturn .success]
      ⟨.returned, .stopped, false, true, true, some .success⟩ :=
    .cons (.execReturns _ .success rfl)
      (.cons (.closeMain _ rfl)
        (.cons (.ackAfterMain _ rfl rfl)
          (.cons (.coordReturn _ .success rfl rfl rfl) (.nil _))))
  exact c1_interrupt_never_after_return false _ _ htr

end GoDuck
